import Mathlib

/-!
Verification of the hashnode-to-obsidian converter's transformation pipeline.

The Python sources are shallowly embedded: strings are `String`/`List Char`,
Python dictionaries with known keys become structures whose `Option` fields
model absent (or `None`) keys, and Python truthiness of a string value is
`truthyS`.  Regular-expression substitutions from the source are embedded as
explicit scanners over `List Char` that follow the engine's leftmost,
non-overlapping match discipline for the concrete patterns appearing in the
code.  `re` character classes `\w` and `\s` are modelled over their ASCII
fragment.  The `datetime.fromisoformat(...).strftime(...)` combination and the
image downloader are external collaborators and are passed in as function
parameters, as the specification treats them.
-/

/-! ## Python string primitives -/

/-- ASCII fragment of Python's `\s` / `str.strip` whitespace. -/
def pyIsSpace (c : Char) : Bool :=
  c == ' ' || c == '\t' || c == '\n' || c == '\r' || c == '\x0b' || c == '\x0c'

/-- ASCII fragment of the regex class `\w`: letters, digits, underscore. -/
def isWordChar (c : Char) : Bool :=
  c.isAlphanum || c == '_'

/-- Truthiness of an optional Python string: present and non-empty. -/
def truthyS : Option String → Bool
  | none => false
  | some s => !s.isEmpty

/-- Python `a or b` on optional strings: `a` if truthy, else `b` verbatim. -/
def orElseTruthy (a b : Option String) : Option String :=
  if truthyS a then a else b

/-- Build a string back from its character list. -/
def ofChars (l : List Char) : String := ⟨l⟩

/-- One step of Python `str.replace` scanning, with fuel (each recursive call
consumes at least one character, so `l.length` fuel suffices). -/
def pyReplaceAux (old new : List Char) : Nat → List Char → List Char
  | 0, l => l
  | _ + 1, [] => []
  | n + 1, c :: rest =>
    if old.isPrefixOf (c :: rest) then
      new ++ pyReplaceAux old new n (rest.drop (old.length - 1))
    else
      c :: pyReplaceAux old new n rest

/-- Python `s.replace(old, new)`: replace all non-overlapping occurrences,
left to right.  The empty-pattern case inserts `new` around every character,
matching CPython. -/
def pyReplace (old new s : String) : String :=
  if old.isEmpty then
    ofChars (s.data.foldr (fun c acc => new.data ++ c :: acc) new.data)
  else
    ofChars (pyReplaceAux old.data new.data (s.data.length + 1) s.data)

/-- Substring occurrence test on character lists (Python `needle in hay`). -/
def occurs (needle : List Char) : List Char → Bool
  | [] => needle.isEmpty
  | c :: t => needle.isPrefixOf (c :: t) || occurs needle t

/-- Python `needle in hay` on strings. -/
def hasSub (needle hay : String) : Bool := occurs needle.data hay.data

/-- Remove trailing characters satisfying `p` (right half of Python `strip`). -/
def dropTrailing (p : Char → Bool) : List Char → List Char
  | [] => []
  | c :: t =>
    let r := dropTrailing p t
    if r.isEmpty && p c then [] else c :: r

/-- Python `strip` over a character class, on lists. -/
def stripList (p : Char → Bool) (l : List Char) : List Char :=
  dropTrailing p (l.dropWhile p)

/-- Python `s.strip()` (whitespace). -/
def pyStrip (s : String) : String := ofChars (stripList pyIsSpace s.data)

/-- Python `'\n'.join(lines)`. -/
def joinLines : List String → String
  | [] => ""
  | [x] => x
  | x :: y :: t => x ++ "\n" ++ joinLines (y :: t)

/-- Python `', '.join(items)`. -/
def joinComma : List String → String
  | [] => ""
  | [x] => x
  | x :: y :: t => x ++ ", " ++ joinComma (y :: t)

/-- Python `s.split('\n')`: every separator splits, empty pieces kept. -/
def splitNl : List Char → List (List Char)
  | [] => [[]]
  | c :: t =>
    match splitNl t with
    | [] => [[]]
    | h :: r => if c == '\n' then [] :: h :: r else (c :: h) :: r

/-- The A-Z to a-z table of CPython's `str.lower` on the ASCII range. -/
def lowerTable : List (Char × Char) :=
  [('A', 'a'), ('B', 'b'), ('C', 'c'), ('D', 'd'), ('E', 'e'), ('F', 'f'),
   ('G', 'g'), ('H', 'h'), ('I', 'i'), ('J', 'j'), ('K', 'k'), ('L', 'l'),
   ('M', 'm'), ('N', 'n'), ('O', 'o'), ('P', 'p'), ('Q', 'q'), ('R', 'r'),
   ('S', 's'), ('T', 't'), ('U', 'u'), ('V', 'v'), ('W', 'w'), ('X', 'x'),
   ('Y', 'y'), ('Z', 'z')]

/-- ASCII `str.lower` on one character: look the character up in the table,
other characters (in the ASCII fragment) are unchanged. -/
def pyLowerChar (c : Char) : Char :=
  match lowerTable.find? (fun kv => kv.1 == c) with
  | some kv => kv.2
  | none => c

/-- Python `s.lower()` over the ASCII fragment. -/
def pyLower (s : String) : String := ofChars (s.data.map pyLowerChar)

/-! ## Data model

`RawPost` is the as-exported record (after the loader's validation `_id`,
`title` and `slug` are present strings, so those three are plain fields).
`EnrichedPost` mirrors the dictionaries produced by `HashNodeEnricher`:
`Option` fields model absent keys, `content` is the optional inner
`{html, markdown}` dictionary (`none` also models the falsy empty dictionary
the API path stores), and tag/series entries are the dict-or-bare-id union the
transformer branches on with `isinstance`. -/

structure ContentField where
  markdown : Option String
  html : Option String

inductive TagData where
  | obj (name id : Option String)
  | scalar (s : String)

inductive SeriesData where
  | obj (name id : Option String)
  | scalar (s : String)

/-- The value an enrichment record stores under its `coverImage` key: both the
API path (`_fetch_post_data`) and the fallback path (`create_fallback_enrichment`)
store either the Python literal `None` (`pyNone`) or a `\x7b'url': ...\x7d`
dictionary (`obj`, whose `url` entry may itself be absent or `None`). -/
inductive CoverImage where
  | pyNone
  | obj (url : Option String)

structure RawPost where
  id : String
  title : String
  slug : String
  content : Option String
  contentMarkdown : Option String
  brief : Option String
  subtitle : Option String
  coverImage : Option String
  publishedAt : Option String
  dateAdded : Option String
  updatedAt : Option String
  tags : List String
  series : Option String
  readTime : Option Nat
  readTimeInMinutes : Option Nat
  isActive : Option Bool

structure EnrichedPost where
  title : Option String
  slug : Option String
  brief : Option String
  publishedAt : Option String
  content : Option ContentField
  tags : List TagData
  series : Option SeriesData
  coverImage : Option CoverImage
  readTimeInMinutes : Option Nat

/-! ## Content extractor (`_get_post_content`, both dialects) -/

namespace ContentTransformer

/-- Embeds `ContentTransformer._get_post_content` (src/converter/transformer.py). -/
def get_post_content (original_post : RawPost) (enriched_post : EnrichedPost) : String :=
  match enriched_post.content with
  | some cf =>
    if truthyS cf.markdown then cf.markdown.getD ""
    else if truthyS cf.html then cf.html.getD ""
    else if truthyS original_post.contentMarkdown then original_post.contentMarkdown.getD ""
    else if truthyS original_post.content then original_post.content.getD ""
    else ""
  | none =>
    if truthyS original_post.contentMarkdown then original_post.contentMarkdown.getD ""
    else if truthyS original_post.content then original_post.content.getD ""
    else ""

end ContentTransformer

namespace ObsidianTransformer

/-- Embeds `ObsidianTransformer._get_post_content` (src/obsidian_transformer.py),
character for character the same code as the 11ty dialect's. -/
def get_post_content (original_post : RawPost) (enriched_post : EnrichedPost) : String :=
  match enriched_post.content with
  | some cf =>
    if truthyS cf.markdown then cf.markdown.getD ""
    else if truthyS cf.html then cf.html.getD ""
    else if truthyS original_post.contentMarkdown then original_post.contentMarkdown.getD ""
    else if truthyS original_post.content then original_post.content.getD ""
    else ""
  | none =>
    if truthyS original_post.contentMarkdown then original_post.contentMarkdown.getD ""
    else if truthyS original_post.content then original_post.content.getD ""
    else ""

end ObsidianTransformer

/-- Spec-side reading of the precedence contract: the first non-empty string
in the candidate list, or the empty string. -/
def firstNonEmptyCandidate : List String → String
  | [] => ""
  | s :: t => if s.isEmpty then firstNonEmptyCandidate t else s

/-- Value of an optional string candidate, the absent case read as empty. -/
def optStr (o : Option String) : String := o.getD ""

/-- The four content candidates in the order the spec states them. -/
def contentCandidates (original_post : RawPost) (enriched_post : EnrichedPost) : List String :=
  [ optStr (enriched_post.content.bind ContentField.markdown)
  , optStr (enriched_post.content.bind ContentField.html)
  , optStr original_post.contentMarkdown
  , optStr original_post.content ]

/-! ## Slugify (`_slugify`, identical in both dialects)

The two regex passes are `re.sub(r'[^\w\s-]', '', ...)` (a filter) and
`re.sub(r'[-\s]+', '-', ...)` (collapse each run of hyphens/whitespace to one
hyphen, written as a structurally recursive scan carrying an in-run flag),
followed by `strip('-')`. -/

/-- Keep-predicate of `re.sub(r'[^\w\s-]', '', slug)`. -/
def slugKeep (c : Char) : Bool := isWordChar c || pyIsSpace c || c == '-'

/-- Character class `[-\s]` of the collapsing substitution. -/
def hyphenOrSpace (c : Char) : Bool := c == '-' || pyIsSpace c

/-- Embeds `re.sub(r'[-\s]+', '-', ...)`: the flag records whether the previous
character was part of a hyphen/whitespace run already replaced. -/
def collapseHyAux : Bool → List Char → List Char
  | _, [] => []
  | inRun, c :: t =>
    if hyphenOrSpace c then
      if inRun then collapseHyAux true t else '-' :: collapseHyAux true t
    else c :: collapseHyAux false t

/-- Python `slug.strip('-')`. -/
def stripHyphens (l : List Char) : List Char :=
  dropTrailing (fun c => c == '-') (l.dropWhile (fun c => c == '-'))

/-- Embeds `_slugify` body on character lists: lower, drop `[^\w\s-]`, collapse
`[-\s]+` runs to `-`, strip `-`. -/
def slugifyList (l : List Char) : List Char :=
  stripHyphens (collapseHyAux false ((l.map pyLowerChar).filter slugKeep))

namespace ContentTransformer

/-- Embeds `ContentTransformer._slugify` (src/converter/transformer.py). -/
def slugify (text : String) : String := ofChars (slugifyList text.data)

end ContentTransformer

namespace ObsidianTransformer

/-- Embeds `ObsidianTransformer._slugify` (src/obsidian_transformer.py), the same
code as the 11ty dialect's. -/
def slugify (text : String) : String := ofChars (slugifyList text.data)

end ObsidianTransformer

/-! ## Date parsing (`_parse_date`, identical in both dialects)

`datetime.datetime.fromisoformat(s).strftime('%Y-%m-%d')` is an external
collaborator passed in as `isoFmt`; `none` models the exception path the
bare `except:` catches.  `today` is the injected current system date
(`datetime.date.today().strftime('%Y-%m-%d')`). -/

namespace ContentTransformer

/-- Embeds `ContentTransformer._parse_date` (src/converter/transformer.py). -/
def parse_date (today : String) (isoFmt : String → Option String)
    (date_string : Option String) : String :=
  match date_string with
  | none => today
  | some s =>
    if s.isEmpty then today
    else if occurs ['T'] s.data then ofChars (s.data.takeWhile (fun c => !(c == 'T')))
    else
      match isoFmt (pyReplace "Z" "+00:00" s) with
      | some d => d
      | none => today

end ContentTransformer

namespace ObsidianTransformer

/-- Embeds `ObsidianTransformer._parse_date` (src/obsidian_transformer.py), the same
code as the 11ty dialect's. -/
def parse_date (today : String) (isoFmt : String → Option String)
    (date_string : Option String) : String :=
  match date_string with
  | none => today
  | some s =>
    if s.isEmpty then today
    else if occurs ['T'] s.data then ofChars (s.data.takeWhile (fun c => !(c == 'T')))
    else
      match isoFmt (pyReplace "Z" "+00:00" s) with
      | some d => d
      | none => today

/-- Embeds `ObsidianTransformer._generate_description`. -/
def generate_description (title : String) : String :=
  "Read about " ++ pyLower title

end ObsidianTransformer

/-! ## Obsidian formatter: tags, series, description scalars -/

namespace ObsidianFormatter

/-- Embeds `ObsidianFormatter._clean_tag_name` (src/obsidian_transformer.py):
spaces to underscores, strip quotes (`TAG_QUOTES`), drop `[^\w\-_]`
(`TAG_SPECIAL_CHARS`), then replace dots with underscores. -/
def clean_tag_name (tag_name : String) : String :=
  let c1 := pyReplace " " "_" tag_name
  let c2 := ofChars (c1.data.filter (fun c => !(c == '"' || c == '\'')))
  let c3 := ofChars (c2.data.filter (fun c => isWordChar c || c == '-'))
  pyReplace "." "_" c3

/-- Name selection for one tag entry: `tag.get('name', tag.get('id', ''))`
for dictionaries, `str(tag)` for bare scalars. -/
def tagNameOf : TagData → String
  | TagData.obj name idv =>
    match name with
    | some v => v
    | none => match idv with | some v => v | none => ""
  | TagData.scalar s => s

/-- Embeds `ObsidianFormatter.format_tags`: skip falsy names, clean each name, skip
names that clean to the empty string. -/
def format_tags (tags_data : List TagData) : List String :=
  tags_data.filterMap (fun tag =>
    let tag_name := tagNameOf tag
    if tag_name.isEmpty then none
    else
      let clean_tag := clean_tag_name tag_name
      if clean_tag.isEmpty then none else some clean_tag)

/-- Embeds `ObsidianFormatter.format_series`: `none` models the falsy
(`None`/empty) case. -/
def format_series : Option SeriesData → Option String
  | none => none
  | some (SeriesData.obj name idv) => some (name.getD (idv.getD ""))
  | some (SeriesData.scalar s) => some s

/-- Embeds `ObsidianFormatter._format_description_yaml` (the `has_newlines`,
`is_long`, `has_special` locals inlined into the branch condition). -/
def format_description_yaml (description : String) : String :=
  if description.isEmpty then "\"\""
  else
    let clean := pyStrip description
    if clean.data.contains '\n' || decide (clean.length > 80) ||
        ['"', '\'', ':', '#'].any (fun ch => clean.data.contains ch) then
      joinLines ("|" :: (splitNl clean.data).map (fun line => "  " ++ ofChars line))
    else
      "\"" ++ pyReplace "\"" "\\\"" clean ++ "\""

end ObsidianFormatter

/-! ## Obsidian content cleanup (`_clean_content_for_obsidian`)

The module-level regexes `RAW_BLOCK_START`, `RAW_BLOCK_END`, the three image
attribute patterns and `EXTRA_WHITESPACE` are embedded as fueled scanners
(the fuel is the input length plus one; every recursive call consumes at
least one character). -/

/-- Characters of the literal passthrough opening marker. -/
def rawStartLit : List Char := "\x7b% raw %\x7d".data

/-- Characters of the literal passthrough closing marker. -/
def rawEndLit : List Char := "\x7b% endraw %\x7d".data

/-- Embeds `re.sub(r'{% raw %}\s*', '', content)`: each match is the marker plus the
maximal following whitespace run. -/
def removeRawStartAux : Nat → List Char → List Char
  | 0, l => l
  | _ + 1, [] => []
  | n + 1, c :: t =>
    if rawStartLit.isPrefixOf (c :: t) then
      removeRawStartAux n ((t.drop (rawStartLit.length - 1)).dropWhile pyIsSpace)
    else
      c :: removeRawStartAux n t

/-- Embeds `re.sub(r'\s*{% endraw %}', '', content)`: a match at a position is the
whitespace run from there followed immediately by the closing marker (a
shorter run cannot match, as the next pattern character is a brace). -/
def removeRawEndAux : Nat → List Char → List Char
  | 0, l => l
  | _ + 1, [] => []
  | n + 1, c :: t =>
    if rawEndLit.isPrefixOf ((c :: t).dropWhile pyIsSpace) then
      removeRawEndAux n (((c :: t).dropWhile pyIsSpace).drop rawEndLit.length)
    else
      c :: removeRawEndAux n t

/-- Literal `attr="` piece of the image-attribute patterns. -/
def attrLit (attr : List Char) : List Char := attr ++ ('=' :: '"' :: [])

/-- Tail of an image-attribute match after the url part:
`\s+ attr="[^"]*"` then group 2 `[^)]*\)`.  Returns the group-2 text and the
remainder after the whole match, or `none`.  (`[^"]*` and `[^)]*` each admit
exactly one viable extent, up to the next quote or closing paren.) -/
def attrMid (attr : List Char) (l : List Char) : Option (List Char × List Char) :=
  let ws := l.takeWhile pyIsSpace
  if ws.isEmpty then none
  else
    let a := l.dropWhile pyIsSpace
    if (attrLit attr).isPrefixOf a then
      let b := a.drop (attrLit attr).length
      let t := b.takeWhile (fun c => !(c == '"'))
      match b.drop t.length with
      | '"' :: b2 =>
        let g2a := b2.takeWhile (fun c => !(c == ')'))
        match b2.drop g2a.length with
        | ')' :: rest => some (g2a ++ [')'], rest)
        | _ => none
      | _ => none
    else none

/-- Lazy `[^)]+?` loop: having consumed `acc` (reversed, at least one
character), first try the rest of the pattern, else extend by one more
non-`)` character. -/
def attrUrlLoop (attr : List Char) : Nat → List Char → List Char →
    Option (List Char × List Char × List Char)
  | 0, _, _ => none
  | n + 1, acc, l =>
    match attrMid attr l with
    | some (g2, rest) => some (acc.reverse, g2, rest)
    | none =>
      match l with
      | [] => none
      | c :: rest => if c == ')' then none else attrUrlLoop attr n (c :: acc) rest

/-- Embeds `[^)]+?` entry: the first url character must exist and not be `)`. -/
def attrUrl (attr : List Char) (l : List Char) :
    Option (List Char × List Char × List Char) :=
  match l with
  | [] => none
  | c :: rest =>
    if c == ')' then none else attrUrlLoop attr (rest.length + 1) [c] rest

/-- Lazy `.*?` scan after `![`: look for `](` followed by a viable
url/attribute tail; on failure consume one non-newline character. Returns
the replacement text after `![` (everything kept by `\1\2`) and the
remainder after the match. -/
def attrScanBracket (attr : List Char) : Nat → List Char → Option (List Char × List Char)
  | 0, _ => none
  | _ + 1, [] => none
  | n + 1, c :: t =>
    if c == ']' then
      match t with
      | '(' :: t2 =>
        match attrUrl attr t2 with
        | some (url, g2, rest) => some (']' :: '(' :: (url ++ g2), rest)
        | none =>
          match attrScanBracket attr n t with
          | some (piece, rest) => some (c :: piece, rest)
          | none => none
      | _ =>
        match attrScanBracket attr n t with
        | some (piece, rest) => some (c :: piece, rest)
        | none => none
    else if c == '\n' then none
    else
      match attrScanBracket attr n t with
      | some (piece, rest) => some (c :: piece, rest)
      | none => none

/-- One image-attribute substitution pass
(`re.sub(r'(\!\[.*?\]\([^)]+?)\s+attr="[^"]*"([^)]*\))', r'\1\2', ...)`). -/
def cleanAttrAux (attr : List Char) : Nat → List Char → List Char
  | 0, l => l
  | _ + 1, [] => []
  | n + 1, c :: t =>
    if c == '!' then
      match t with
      | '[' :: t2 =>
        match attrScanBracket attr (t2.length + 1) t2 with
        | some (piece, rest) => '!' :: '[' :: (piece ++ cleanAttrAux attr n rest)
        | none => '!' :: cleanAttrAux attr n t
      | _ => c :: cleanAttrAux attr n t
    else c :: cleanAttrAux attr n t

/-- Embeds `re.sub(r'\n\s*\n\s*\n', '\n\n', content)`: a match starts at a newline
whose following whitespace run contains at least two more newlines; greedy
`\s*` makes the match extend to the last newline of the run. -/
def collapseNlAux : Nat → List Char → List Char
  | 0, l => l
  | _ + 1, [] => []
  | n + 1, c :: t =>
    if c == '\n' then
      let run := t.takeWhile pyIsSpace
      if 2 ≤ (run.filter (fun d => d == '\n')).length then
        let keepIdx := run.length - (run.reverse.takeWhile (fun d => !(d == '\n'))).length
        '\n' :: '\n' :: collapseNlAux n (t.drop keepIdx)
      else c :: collapseNlAux n t
    else c :: collapseNlAux n t

namespace ObsidianTransformer

/-- Embeds `ObsidianTransformer._clean_image_urls`: strip `align`, `width`, `height`
attribute fragments, in that order. -/
def clean_image_urls (content : String) : String :=
  let c1 := ofChars (cleanAttrAux "align".data (content.data.length + 1) content.data)
  let c2 := ofChars (cleanAttrAux "width".data (c1.data.length + 1) c1.data)
  ofChars (cleanAttrAux "height".data (c2.data.length + 1) c2.data)

/-- Embeds `ObsidianTransformer._clean_content_for_obsidian`: strip passthrough
markers, strip image attributes, collapse triple blank runs, strip ends.
(`_remove_template_escaping` is the identity in the source.) -/
def clean_content_for_obsidian (content : String) : String :=
  if content.isEmpty then ""
  else
    let c1 := ofChars (removeRawStartAux (content.data.length + 1) content.data)
    let c2 := ofChars (removeRawEndAux (c1.data.length + 1) c1.data)
    let c3 := clean_image_urls c2
    let c4 := ofChars (collapseNlAux (c3.data.length + 1) c3.data)
    pyStrip c4

end ObsidianTransformer

/-! ## Normalized posts and the Obsidian transformer -/

/-- The dictionary `ObsidianTransformer.transform_post` builds, with string
fields whose empty value models Python falsiness and `Option` fields where the
source can store `None`. -/
structure ObsidianPost where
  title : String
  subtitle : String
  slug : String
  description : String
  date : String
  updated : String
  status : List String
  tags : List String
  series : Option String
  reading_time : Nat
  cover_image : Option String
  content : String

namespace ObsidianTransformer

/-- Embeds `ObsidianTransformer.transform_post` composed with `_extract_metadata`
(src/obsidian_transformer.py): the field-by-field `or`-precedence, with
`today` the injected clock and `isoFmt` the `datetime` collaborator. The result
is `none` exactly when the cover-image step raises: when the enrichment record
stores Python `None` under its `coverImage` key, `enriched_post.get('coverImage',
\x7b\x7d)` returns that `None` (the `dict.get` default applies only to a missing
key) and `.get('url')` on it raises an `AttributeError` that no caller catches. -/
def transform_post (today : String) (isoFmt : String → Option String)
    (original_post : RawPost) (enriched_post : EnrichedPost) : Option ObsidianPost :=
  let title := if truthyS enriched_post.title then enriched_post.title.getD ""
    else original_post.title
  let slug := if truthyS enriched_post.slug then enriched_post.slug.getD ""
    else original_post.slug
  let date := parse_date today isoFmt
    (orElseTruthy enriched_post.publishedAt
      (orElseTruthy original_post.publishedAt original_post.dateAdded))
  let updated := parse_date today isoFmt original_post.updatedAt
  let description :=
    if truthyS enriched_post.brief then enriched_post.brief.getD ""
    else if truthyS original_post.brief then original_post.brief.getD ""
    else generate_description title
  let status := if original_post.isActive.getD true then ["published"] else ["draft"]
  let readTimeFallback :=
    match original_post.readTime with
    | some m => if m ≠ 0 then m else original_post.readTimeInMinutes.getD 5
    | none => original_post.readTimeInMinutes.getD 5
  let reading_time :=
    match enriched_post.readTimeInMinutes with
    | some n => if n ≠ 0 then n else readTimeFallback
    | none => readTimeFallback
  let mkPost := fun (cover_image : Option String) =>
    { title := title
      subtitle := original_post.subtitle.getD ""
      slug := slug
      description := description
      date := date
      updated := updated
      status := status
      tags := ObsidianFormatter.format_tags enriched_post.tags
      series := ObsidianFormatter.format_series enriched_post.series
      reading_time := reading_time
      cover_image := cover_image
      content := clean_content_for_obsidian (get_post_content original_post enriched_post)
      : ObsidianPost }
  match enriched_post.coverImage with
  | some CoverImage.pyNone => none
  | some (CoverImage.obj url) =>
    some (mkPost (if truthyS url then url
      else if truthyS original_post.coverImage then original_post.coverImage
      else none))
  | none =>
    some (mkPost (if truthyS original_post.coverImage then original_post.coverImage
      else none))

end ObsidianTransformer

/-! ## Obsidian frontmatter rendering -/

namespace ObsidianFormatter

/-- The conditional frontmatter lines `generate_frontmatter_and_content`
appends between the two `---` delimiters, in source order. -/
def fieldLines (post : ObsidianPost) : List String :=
  ["title: \"" ++ post.title ++ "\""]
  ++ (if !post.subtitle.isEmpty then ["subtitle: \"" ++ post.subtitle ++ "\""] else [])
  ++ (if !post.slug.isEmpty then ["slug: \"" ++ post.slug ++ "\""] else [])
  ++ (if !post.description.isEmpty then
        ["description: " ++ format_description_yaml post.description] else [])
  ++ (if !post.date.isEmpty then ["date: " ++ post.date] else [])
  ++ (if !post.updated.isEmpty then ["updated: " ++ post.updated] else [])
  ++ (if !post.status.isEmpty then "status:" :: post.status.map (fun st => "  - " ++ st) else [])
  ++ (if !post.tags.isEmpty then "tags:" :: post.tags.map (fun tg => "  - " ++ tg) else [])
  ++ (if truthyS post.series then ["series: \"" ++ post.series.getD "" ++ "\""] else [])
  ++ (if post.reading_time ≠ 0 then ["reading_time: " ++ toString post.reading_time] else [])
  ++ (if truthyS post.cover_image then
        ["cover_image: \"" ++ post.cover_image.getD "" ++ "\""] else [])

/-- Embeds `ObsidianFormatter.generate_frontmatter_and_content`:
`'\n'.join(['---'] + lines + ['---', '']) + content`. -/
def generate_frontmatter_and_content (post : ObsidianPost) : String :=
  joinLines (["---"] ++ fieldLines post ++ ["---", ""]) ++ post.content

end ObsidianFormatter

/-! ## The 11ty dialect's manual rendering and template escaping -/

/-- The dictionary `ContentTransformer.transform_post` builds for the 11ty
dialect (`layout` is always `post` and `permalink` is `/slug/`). -/
structure EleventyPost where
  title : String
  slug : String
  date : String
  excerpt : String
  tags : List String
  series : Option String
  coverImage : Option String
  readTime : Nat
  content : String
  layout : String
  permalink : String

namespace ContentTransformer

/-- The frontmatter lines of `_generate_manual_markdown`
(src/converter/transformer.py): title, date, permalink and layout
unconditionally, the rest only when truthy. -/
def manualFieldLines (post : EleventyPost) : List String :=
  [ "title: \"" ++ post.title ++ "\""
  , "date: " ++ post.date
  , "permalink: \"" ++ post.permalink ++ "\""
  , "layout: \"" ++ post.layout ++ "\"" ]
  ++ (if !post.excerpt.isEmpty then ["excerpt: \"" ++ post.excerpt ++ "\""] else [])
  ++ (if truthyS post.coverImage then
        ["coverImage: \"" ++ post.coverImage.getD "" ++ "\""] else [])
  ++ (if post.readTime ≠ 0 then ["readTime: " ++ toString post.readTime] else [])
  ++ (if !post.tags.isEmpty then
        ["tags: [" ++ joinComma (post.tags.map (fun tg => "\"" ++ tg ++ "\"")) ++ "]"] else [])
  ++ (if truthyS post.series then ["series: \"" ++ post.series.getD "" ++ "\""] else [])

/-- Embeds `ContentTransformer._generate_manual_markdown`:
`'\n'.join(['---'] + lines + ['---', '']) + content`. -/
def generate_manual_markdown (post : EleventyPost) : String :=
  joinLines (["---"] ++ manualFieldLines post ++ ["---", ""]) ++ post.content

/-- The `has_template_syntax` test of `_escape_template_syntax`: each
delimiter pair is checked as two separate substring tests. -/
def has_template_syntax (content : String) : Bool :=
  (hasSub "\x7b\x7b" content && hasSub "\x7d\x7d" content) ||
  (hasSub "\x7b%" content && hasSub "%\x7d" content) ||
  (hasSub "\x7b#" content && hasSub "#\x7d" content)

/-- Embeds `ContentTransformer._escape_template_syntax`
(src/converter/transformer.py). -/
def escape_template_syntax (content : String) : String :=
  if has_template_syntax content then
    if hasSub "\x7b% raw %\x7d" content then content
    else "\x7b% raw %\x7d\n" ++ content ++ "\n\x7b% endraw %\x7d"
  else content

end ContentTransformer

/-! ## Image URL extraction and rewriting

`IMAGE_URL_PATTERN = r'!\[.*?\]\(([^)]+)\)'` is embedded as a fueled
leftmost-match scanner (`.` does not cross newlines; `[^)]+` extends to the
first closing paren).  The downloader is the external collaborator of the
spec: a mapping from extracted URL to the local reference substituted for it
(`none` models a failed or skipped download). -/

/-- Embeds `([^)]+)\)`: the capture is everything up to the first `)`, nonempty. -/
def parenUrl (l : List Char) : Option (List Char × List Char) :=
  let url := l.takeWhile (fun c => !(c == ')'))
  match l.drop url.length with
  | ')' :: rest => if url.isEmpty then none else some (url, rest)
  | _ => none

/-- Lazy `.*?` scan after `![`, looking for `](` followed by `([^)]+)\)`. -/
def imgTail : Nat → List Char → Option (List Char × List Char)
  | 0, _ => none
  | _ + 1, [] => none
  | n + 1, c :: t =>
    if c == ']' then
      match t with
      | '(' :: t2 =>
        match parenUrl t2 with
        | some (url, rest) => some (url, rest)
        | none => imgTail n t
      | _ => imgTail n t
    else if c == '\n' then none
    else imgTail n t

/-- Embeds `re.findall` over the image pattern: scan for `![`, match lazily, resume
after each full match. -/
def findImageUrls : Nat → List Char → List (List Char)
  | 0, _ => []
  | _ + 1, [] => []
  | n + 1, c :: t =>
    if c == '!' then
      match t with
      | '[' :: t2 =>
        match imgTail (t2.length + 1) t2 with
        | some (url, rest) => url :: findImageUrls n rest
        | none => findImageUrls n t
      | _ => findImageUrls n t
    else findImageUrls n t

namespace ObsidianFormatter

/-- Embeds `ObsidianFormatter.extract_images_from_content`: findall, strip each
capture, keep only `http://`/`https://` URLs. -/
def extract_images_from_content (content : String) : List String :=
  if content.isEmpty then []
  else
    (findImageUrls (content.data.length + 1) content.data).filterMap (fun u =>
      let stripped := stripList pyIsSpace u
      if "http://".data.isPrefixOf stripped || "https://".data.isPrefixOf stripped then
        some (ofChars stripped)
      else none)

end ObsidianFormatter

namespace ContentTransformer

/-- Embeds `ContentTransformer.extract_images_from_content`
(src/converter/transformer.py), the same code as the Obsidian formatter's. -/
def extract_images_from_content (content : String) : List String :=
  if content.isEmpty then []
  else
    (findImageUrls (content.data.length + 1) content.data).filterMap (fun u =>
      let stripped := stripList pyIsSpace u
      if "http://".data.isPrefixOf stripped || "https://".data.isPrefixOf stripped then
        some (ofChars stripped)
      else none)

end ContentTransformer

namespace HashNodeToObsidianConverter

/-- Embeds `HashNodeToObsidianConverter._download_content_images_obsidian`
(src/h2o.py): extract the image URLs, then for each one in order replace all
its literal occurrences by the downloader's local reference; `mapping` is the
downloader collaborator (download plus relative-path assembly), `none`
meaning the download failed and the URL is left as is.
`ImageHandler._download_content_images` (src/converter/image_handler.py) is
the same loop with a different path prefix inside the mapping. -/
def download_content_images (content : String) (mapping : String → Option String) : String :=
  if content.isEmpty then content
  else
    let image_urls := ObsidianFormatter.extract_images_from_content content
    if image_urls.isEmpty then content
    else
      image_urls.foldl (fun acc url =>
        match mapping url with
        | some localRef => pyReplace url localRef acc
        | none => acc) content

end HashNodeToObsidianConverter

/-! ## Enricher fallback and the conversion pipeline -/

namespace HashNodeEnricher

/-- Embeds `HashNodeEnricher._create_fallback_tags`: names derived from the first 8
characters of the tag id, prefixed `Tag-`. -/
def create_fallback_tags (tag_ids : List String) : List TagData :=
  tag_ids.map (fun tid =>
    TagData.obj (some ("Tag-" ++ ofChars (tid.data.take 8))) (some tid))

/-- Embeds `HashNodeEnricher._create_fallback_series`. -/
def create_fallback_series : Option String → Option SeriesData
  | none => none
  | some sid =>
    if sid.isEmpty then none
    else some (SeriesData.obj (some ("Series-" ++ ofChars (sid.data.take 8))) (some sid))

/-- The synthesized record `create_fallback_enrichment` stores for one post
(the body of its loop). -/
def fallback_record (post : RawPost) : EnrichedPost :=
  { title := some post.title
    slug := some post.slug
    brief := some (post.brief.getD "")
    publishedAt :=
      match post.publishedAt with
      | some v => some v
      | none => post.dateAdded
    content := some
      { markdown := some (post.contentMarkdown.getD (post.content.getD ""))
        html := some (post.content.getD "") }
    tags := create_fallback_tags post.tags
    series := create_fallback_series post.series
    coverImage := some (if truthyS post.coverImage then CoverImage.obj post.coverImage
      else CoverImage.pyNone)
    readTimeInMinutes := some (post.readTimeInMinutes.getD 5) }

/-- Embeds `HashNodeEnricher.create_fallback_enrichment`: one synthesized record per
post, keyed by its id. -/
def create_fallback_enrichment (posts : List RawPost) : List (String × EnrichedPost) :=
  posts.map (fun post => (post.id, fallback_record post))

/-- Embeds `HashNodeEnricher.enrich_posts` with the per-post GraphQL fetch as the
collaborator `fetch` (`none` models a failed fetch or missing post: only
successes are stored). Batching does not change the resulting dictionary. -/
def enrich_posts (fetch : String → Option EnrichedPost) (can_enrich : Bool)
    (post_ids : List String) : List (String × EnrichedPost) :=
  if !can_enrich then []
  else post_ids.filterMap (fun pid => (fetch pid).map (fun e => (pid, e)))

end HashNodeEnricher

/-- Python dictionary lookup on an association list built by repeated
assignment (a later binding for the same key overwrites an earlier one). -/
def dictGet (m : List (String × EnrichedPost)) (k : String) : Option EnrichedPost :=
  match m.reverse.find? (fun kv => kv.1 == k) with
  | some kv => some kv.2
  | none => none

namespace HashNodeToObsidianConverter

/-- Phase 3's per-post loop in `HashNodeToObsidianConverter.convert` (src/h2o.py):
a post whose enrichment record is absent is skipped by the
`if not enriched_post: continue` guard (a warning, the loop goes on); when
`transform_post` raises, the exception propagates out of `convert` uncaught,
so the whole run aborts — modeled by the loop returning `none`. -/
def transformLoop (today : String) (isoFmt : String → Option String)
    (enriched_data : List (String × EnrichedPost)) : List RawPost → Option (List ObsidianPost)
  | [] => some []
  | post :: rest =>
    match dictGet enriched_data post.id with
    | none => transformLoop today isoFmt enriched_data rest
    | some enriched_post =>
      match ObsidianTransformer.transform_post today isoFmt post enriched_post with
      | none => none
      | some tp => (transformLoop today isoFmt enriched_data rest).map (fun out => tp :: out)

/-- Phases 2 and 3 of `HashNodeToObsidianConverter.convert` (src/h2o.py):
choose fallback enrichment when enrichment is skipped or impossible, else
fetch; then run the transform loop over the loaded posts. `none` models the
run aborting on an uncaught exception from `transform_post`. -/
def convert_transform (skip_enrichment can_enrich : Bool)
    (fetch : String → Option EnrichedPost) (today : String)
    (isoFmt : String → Option String) (posts : List RawPost) : Option (List ObsidianPost) :=
  let enriched_data :=
    if skip_enrichment then HashNodeEnricher.create_fallback_enrichment posts
    else if !can_enrich then HashNodeEnricher.create_fallback_enrichment posts
    else HashNodeEnricher.enrich_posts fetch can_enrich (posts.map (fun p => p.id))
  transformLoop today isoFmt enriched_data posts

end HashNodeToObsidianConverter

/-! ## Spec-side forms used to state the claims -/

/-- The spec's trigger for the literal block-scalar description form, read on
a given (already cleaned) string: newline, over 80 characters, or one of
`" ' : #`. -/
def descNeedsBlock (clean : String) : Bool :=
  clean.data.contains '\n' || decide (clean.length > 80) ||
    ['"', '\'', ':', '#'].any (fun ch => clean.data.contains ch)

/-- The spec's literal block scalar: `|` followed by the 2-space-indented
lines. -/
def descBlockScalar (clean : String) : String :=
  joinLines ("|" :: (splitNl clean.data).map (fun line => "  " ++ ofChars line))

/-- The spec's double-quoted scalar with internal double quotes
backslash-escaped. -/
def descQuotedScalar (clean : String) : String :=
  "\"" ++ pyReplace "\"" "\\\"" clean ++ "\""

/-- Embeds `pre` is a literal prefix of `s`. -/
def strStarts (pre s : String) : Bool := pre.data.isPrefixOf s.data

/-- A sample loaded post (the end-to-end example of the spec's section 8). -/
def rawPostW : RawPost :=
  { id := "1"
    title := "Hello World"
    slug := "hello-world"
    content := some "# Hi"
    contentMarkdown := none
    brief := none
    subtitle := none
    coverImage := none
    publishedAt := none
    dateAdded := none
    updatedAt := none
    tags := ["t1"]
    series := none
    readTime := none
    readTimeInMinutes := none
    isActive := none }

/-- A sample loaded post that carries a cover image. -/
def rawPostC : RawPost :=
  { id := "2"
    title := "With Cover"
    slug := "with-cover"
    content := some "# Hi"
    contentMarkdown := none
    brief := none
    subtitle := none
    coverImage := some "https://cdn.example.com/cover.png"
    publishedAt := none
    dateAdded := none
    updatedAt := none
    tags := []
    series := none
    readTime := none
    readTimeInMinutes := none
    isActive := none }

/-- A normalized notes-dialect post whose optional fields are all falsy. -/
def obsPostW : ObsidianPost :=
  { title := ""
    subtitle := ""
    slug := ""
    description := ""
    date := ""
    updated := ""
    status := []
    tags := []
    series := none
    reading_time := 0
    cover_image := none
    content := "BODY" }

/-- A normalized site-generator-dialect post with truthy optional fields. -/
def eleventyPostW : EleventyPost :=
  { title := "Hello World"
    slug := "hello-world"
    date := "2023-05-01"
    excerpt := "An excerpt"
    tags := ["Tag-t1"]
    series := none
    coverImage := none
    readTime := 5
    content := "# Hi"
    layout := "post"
    permalink := "/hello-world/" }

/-- Characters kept by neither a hyphen run nor the word class: the
normal-form predicate of a collapsed slug (no whitespace, no two adjacent
hyphens). -/
def slugNormal : List Char → Bool
  | [] => true
  | [c] => !pyIsSpace c
  | c :: d :: t => !pyIsSpace c && !(c == '-' && d == '-') && slugNormal (d :: t)

/-! # Theorems -/

/-- Claim C1: in both dialects the extracted content is the first non-empty
candidate among enriched markdown, enriched html, raw `contentMarkdown`, raw
`content`, and the empty string when all four are absent or empty. -/
theorem claim_c1_content_precedence (original_post : RawPost) (enriched_post : EnrichedPost) :
    ContentTransformer.get_post_content original_post enriched_post =
      firstNonEmptyCandidate (contentCandidates original_post enriched_post) ∧
    ObsidianTransformer.get_post_content original_post enriched_post =
      ContentTransformer.get_post_content original_post enriched_post := by
  refine ⟨?_, rfl⟩
  cases h : enriched_post.content with
  | none =>
    cases hm : original_post.contentMarkdown <;>
      cases hc : original_post.content <;>
        simp [ContentTransformer.get_post_content, firstNonEmptyCandidate,
          contentCandidates, optStr, truthyS, h, hm, hc, String.isEmpty]
  | some cf =>
    cases hm : cf.markdown <;>
      cases hh : cf.html <;>
        cases hcm : original_post.contentMarkdown <;>
          cases hc : original_post.content <;>
            simp [ContentTransformer.get_post_content, firstNonEmptyCandidate,
              contentCandidates, optStr, truthyS, h, hm, hh, hcm, hc, String.isEmpty]

/-! ## Substring helper lemmas -/

theorem isPrefixOf_append_self (a b : List Char) : a.isPrefixOf (a ++ b) = true := by
  induction a with
  | nil => simp [List.isPrefixOf]
  | cons c t ih => simp [List.isPrefixOf, ih]

theorem isPrefixOf_extend {a h : List Char} (t : List Char)
    (hp : a.isPrefixOf h = true) : a.isPrefixOf (h ++ t) = true := by
  induction a generalizing h with
  | nil => simp [List.isPrefixOf]
  | cons c a' ih =>
    cases h with
    | nil => simp [List.isPrefixOf] at hp
    | cons d h' =>
      simp only [List.cons_append, List.isPrefixOf, Bool.and_eq_true] at hp ⊢
      exact ⟨hp.1, ih hp.2⟩

theorem occurs_of_isPrefixOf {a l : List Char} (hp : a.isPrefixOf l = true) :
    occurs a l = true := by
  cases l with
  | nil =>
    cases a with
    | nil => rfl
    | cons c t => simp [List.isPrefixOf] at hp
  | cons c t => simp [occurs, hp]

theorem occurs_append_left {a h : List Char} (t : List Char)
    (ho : occurs a h = true) : occurs a (h ++ t) = true := by
  induction h with
  | nil =>
    simp [occurs] at ho
    exact occurs_of_isPrefixOf (by simp [ho, List.isPrefixOf])
  | cons c h' ih =>
    simp only [occurs, Bool.or_eq_true] at ho
    rcases ho with hp | ho
    · exact occurs_of_isPrefixOf (isPrefixOf_extend t hp)
    · simpa [occurs] using Or.inr (ih ho)

/-! ## Claim C4 (tag cleanup) -/

/-- Claim C4 is wrong about the code: the dot-to-underscore step of
`_clean_tag_name` runs after `TAG_SPECIAL_CHARS` has already deleted every
dot, so `"Next.js"` cleans to `"Nextjs"`, not the `"Next_js"` the code's own
comment (`Handle special cases like "Next.js" -> "Next_js"`) and the spec
promise.  This theorem evaluates the code at the failing input. -/
theorem claim_c4_code_eval :
    ObsidianFormatter.clean_tag_name "Next.js" = "Nextjs" ∧
    ObsidianFormatter.clean_tag_name "Next.js" ≠ "Next_js" ∧
    ObsidianFormatter.format_tags [TagData.obj (some "Next.js") none] = ["Nextjs"] ∧
    ObsidianFormatter.format_tags [TagData.scalar "..."] = [] := by
  refine ⟨by decide, by decide, by decide, by decide⟩

/-! ## Claim C8 (description scalar form) -/

/-- Claim C8's counterexample: `_format_description_yaml` strips the
description before testing it, so `"A simple post\n"` contains a newline yet
is emitted as a double-quoted scalar, not as a literal block scalar. -/
theorem claim_c8_counterexample :
    "A simple post\n".data.contains '\n' = true ∧
    ObsidianFormatter.format_description_yaml "A simple post\n" = "\"A simple post\"" ∧
    (ObsidianFormatter.format_description_yaml "A simple post\n").data.head? ≠ some '|' := by
  refine ⟨by decide, by decide, by decide⟩

/-- Claim C8 as amended: the newline/length/special-character test and the
emitted text both use the whitespace-stripped description; empty input is
emitted as `""`. -/
theorem claim_c8_amended (description : String) :
    (description.isEmpty = true →
      ObsidianFormatter.format_description_yaml description = "\"\"") ∧
    (description.isEmpty = false → descNeedsBlock (pyStrip description) = true →
      ObsidianFormatter.format_description_yaml description =
        descBlockScalar (pyStrip description)) ∧
    (description.isEmpty = false → descNeedsBlock (pyStrip description) = false →
      ObsidianFormatter.format_description_yaml description =
        descQuotedScalar (pyStrip description)) ∧
    ObsidianFormatter.format_description_yaml "A simple post" = "\"A simple post\"" := by
  have heq : ∀ d : String, ObsidianFormatter.format_description_yaml d =
      if d.isEmpty then "\"\""
      else if descNeedsBlock (pyStrip d) then descBlockScalar (pyStrip d)
      else descQuotedScalar (pyStrip d) := fun _ => rfl
  refine ⟨?_, ?_, ?_, by decide⟩
  · intro he
    simp [heq, he]
  · intro he hb
    simp [heq, he, hb]
  · intro he hb
    simp [heq, he, hb]

/-- Witness for the amended claim C8 at concrete descriptions: a simple one
is double-quoted, one with a colon takes the block form. -/
theorem claim_c8_witness :
    ObsidianFormatter.format_description_yaml "A simple post" =
      descQuotedScalar (pyStrip "A simple post") ∧
    ObsidianFormatter.format_description_yaml "has: colon" =
      descBlockScalar (pyStrip "has: colon") := by
  exact ⟨(claim_c8_amended "A simple post").2.2.1 (by decide) (by decide),
    (claim_c8_amended "has: colon").2.1 (by decide) (by decide)⟩

/-! ## Claim C6 (template-delimiter wrapping) -/

theorem has_template_syntax_wrapped (s : String) :
    ContentTransformer.has_template_syntax
      ("\x7b% raw %\x7d\n" ++ s ++ "\n\x7b% endraw %\x7d") = true := by
  have h1 : hasSub "\x7b%" ("\x7b% raw %\x7d\n" ++ s ++ "\n\x7b% endraw %\x7d") = true := by
    simp only [hasSub, String.data_append]
    rw [List.append_assoc]
    exact occurs_append_left _ (by decide)
  have h2 : hasSub "%\x7d" ("\x7b% raw %\x7d\n" ++ s ++ "\n\x7b% endraw %\x7d") = true := by
    simp only [hasSub, String.data_append]
    rw [List.append_assoc]
    exact occurs_append_left _ (by decide)
  simp [ContentTransformer.has_template_syntax, h1, h2]

theorem hasSub_raw_wrapped (s : String) :
    hasSub "\x7b% raw %\x7d" ("\x7b% raw %\x7d\n" ++ s ++ "\n\x7b% endraw %\x7d") = true := by
  simp only [hasSub, String.data_append]
  rw [List.append_assoc]
  exact occurs_append_left _ (by decide)

/-- Claim C6: a body containing a template delimiter pair and no passthrough
marker is wrapped in the marker pair exactly once; the sanitizer is
idempotent, so an already wrapped body is not wrapped again; and the spec's
example body is wrapped exactly once. -/
theorem claim_c6_template_wrap (s : String) :
    (ContentTransformer.has_template_syntax s = true →
      hasSub "\x7b% raw %\x7d" s = false →
      ContentTransformer.escape_template_syntax s =
        "\x7b% raw %\x7d\n" ++ s ++ "\n\x7b% endraw %\x7d") ∧
    ContentTransformer.escape_template_syntax (ContentTransformer.escape_template_syntax s) =
      ContentTransformer.escape_template_syntax s ∧
    ContentTransformer.escape_template_syntax "text \x7b\x7b foo \x7d\x7d more" =
      "\x7b% raw %\x7d\ntext \x7b\x7b foo \x7d\x7d more\n\x7b% endraw %\x7d" := by
  refine ⟨?_, ?_, by decide⟩
  · intro hsyn hraw
    simp [ContentTransformer.escape_template_syntax, hsyn, hraw]
  · by_cases hsyn : ContentTransformer.has_template_syntax s = true
    · by_cases hraw : hasSub "\x7b% raw %\x7d" s = true
      · simp [ContentTransformer.escape_template_syntax, hsyn, hraw]
      · simp only [Bool.not_eq_true] at hraw
        have hw : ContentTransformer.escape_template_syntax s =
            "\x7b% raw %\x7d\n" ++ s ++ "\n\x7b% endraw %\x7d" := by
          simp [ContentTransformer.escape_template_syntax, hsyn, hraw]
        rw [hw]
        simp [ContentTransformer.escape_template_syntax,
          has_template_syntax_wrapped, hasSub_raw_wrapped]
    · simp only [Bool.not_eq_true] at hsyn
      have hs : ContentTransformer.escape_template_syntax s = s := by
        simp [ContentTransformer.escape_template_syntax, hsyn]
      rw [hs, hs]

/-- Witness for claim C6 at the spec's example body (hypotheses discharged by
computation). -/
theorem claim_c6_witness :
    ContentTransformer.escape_template_syntax "text \x7b\x7b foo \x7d\x7d more" =
      "\x7b% raw %\x7d\ntext \x7b\x7b foo \x7d\x7d more\n\x7b% endraw %\x7d" :=
  (claim_c6_template_wrap "text \x7b\x7b foo \x7d\x7d more").1 (by decide) (by decide)

/-! ## Claim C3 (date parsing) -/

/-- Claim C3: both dialects parse dates identically; a string containing `T`
yields the part before the first `T` (so the spec's example yields
`2023-05-01`); absent or empty input yields the injected current date; a
`T`-less string is handed to the ISO collaborator with every `Z` replaced by
`+00:00`, its failure falling back to the current date.  The function is
total, so no string input raises. -/
theorem claim_c3_date_parsing (today : String) (isoFmt : String → Option String) (s : String) :
    (occurs ['T'] s.data = true →
      ContentTransformer.parse_date today isoFmt (some s) =
        ofChars (s.data.takeWhile (fun c => !(c == 'T')))) ∧
    ContentTransformer.parse_date today isoFmt none = today ∧
    ContentTransformer.parse_date today isoFmt (some "") = today ∧
    (s.isEmpty = false → occurs ['T'] s.data = false →
      isoFmt (pyReplace "Z" "+00:00" s) = none →
      ContentTransformer.parse_date today isoFmt (some s) = today) ∧
    (∀ d, s.isEmpty = false → occurs ['T'] s.data = false →
      isoFmt (pyReplace "Z" "+00:00" s) = some d →
      ContentTransformer.parse_date today isoFmt (some s) = d) ∧
    ContentTransformer.parse_date today isoFmt (some "2023-05-01T10:00:00.000Z") =
      "2023-05-01" ∧
    ObsidianTransformer.parse_date today isoFmt = ContentTransformer.parse_date today isoFmt := by
  refine ⟨?_, rfl, rfl, ?_, ?_, ?_, rfl⟩
  · intro hT
    by_cases he : s.isEmpty = true
    · exfalso
      have hs := (String.isEmpty_iff s).mp he
      subst hs
      simp [occurs] at hT
    · simp only [Bool.not_eq_true] at he
      simp [ContentTransformer.parse_date, he, hT]
  · intro he hT hiso
    simp [ContentTransformer.parse_date, he, hT, hiso]
  · intro d he hT hiso
    simp [ContentTransformer.parse_date, he, hT, hiso]
  · have he : ("2023-05-01T10:00:00.000Z" : String).isEmpty = false := by decide
    have hT : occurs ['T'] "2023-05-01T10:00:00.000Z".data = true := by decide
    simp only [ContentTransformer.parse_date, he, Bool.false_eq_true, if_false, hT, if_true]
    decide

/-- Witness for claim C3: the `T` split and the failure fallback at concrete
inputs. -/
theorem claim_c3_witness :
    ContentTransformer.parse_date "2099-12-31" (fun _ => none)
      (some "2023-05-01T10:00:00.000Z") = "2023-05-01" ∧
    ContentTransformer.parse_date "2099-12-31" (fun _ => none)
      (some "not a date") = "2099-12-31" := by
  constructor
  · exact ((claim_c3_date_parsing "2099-12-31" (fun _ => none)
      "2023-05-01T10:00:00.000Z").1 (by decide)).trans (by decide)
  · exact (claim_c3_date_parsing "2099-12-31" (fun _ => none)
      "not a date").2.2.2.1 (by decide) (by decide) rfl

/-! ## Claim C9 (image URL rewriting) -/

theorem download_foldl_none (urls : List String) (mapping : String → Option String)
    (c : String) (h : ∀ v ∈ urls, mapping v = none) :
    urls.foldl (fun acc url =>
      match mapping url with
      | some localRef => pyReplace url localRef acc
      | none => acc) c = c := by
  induction urls generalizing c with
  | nil => rfl
  | cons u rest ih =>
    have hu : mapping u = none := h u (by simp)
    simp only [List.foldl_cons, hu]
    exact ih c (fun v hv => h v (by simp [hv]))

theorem download_unmapped (content : String) (mapping : String → Option String)
    (h : ∀ v ∈ ObsidianFormatter.extract_images_from_content content, mapping v = none) :
    HashNodeToObsidianConverter.download_content_images content mapping = content := by
  by_cases hc : content.isEmpty = true
  · simp [HashNodeToObsidianConverter.download_content_images, hc]
  · simp only [Bool.not_eq_true] at hc
    by_cases hu : (ObsidianFormatter.extract_images_from_content content).isEmpty = true
    · simp [HashNodeToObsidianConverter.download_content_images, hc, hu]
    · simp only [Bool.not_eq_true] at hu
      simp only [HashNodeToObsidianConverter.download_content_images, hc,
        Bool.false_eq_true, if_false, hu]
      exact download_foldl_none _ _ _ h

/-- Claim C9's counterexample: in a body with two extracted URLs where the
first is a literal prefix of the second and both are mapped, the first pass's
`str.replace` also rewrites the first URL's occurrence inside the second
URL, so the second URL no longer occurs when its own pass runs — its mapped
local reference does not appear in the result at all, refuting the claimed
per-URL replacement of every mapped extracted URL. -/
theorem claim_c9_counterexample :
    ObsidianFormatter.extract_images_from_content
      "![a](https://x.com/a.png) ![b](https://x.com/a.pngx)" =
      ["https://x.com/a.png", "https://x.com/a.pngx"] ∧
    HashNodeToObsidianConverter.download_content_images
      "![a](https://x.com/a.png) ![b](https://x.com/a.pngx)"
      (fun v => if v == "https://x.com/a.png" then some "./images/a.png"
        else if v == "https://x.com/a.pngx" then some "./images/b.png" else none) =
      "![a](./images/a.png) ![b](./images/a.pngx)" ∧
    hasSub "./images/b.png" "![a](./images/a.png) ![b](./images/a.pngx)" = false := by
  exact ⟨by decide, by decide, by decide⟩

/-- Claim C9 as amended: the rewrite is one sequential pass per extracted URL
in order of first appearance — a mapped URL's pass replaces every literal
occurrence of it in the current body (Python `str.replace`), an unmapped
URL's pass changes nothing; when no extracted URL is mapped (in particular
for the empty mapping) the body is unchanged; and the spec's example body
rewrites to the local reference. For a two-URL body the passes compose left
to right, so an earlier pass can rewrite inside a later URL's occurrence. -/
theorem claim_c9_amended (content : String) (mapping : String → Option String)
    (u r u1 u2 r1 r2 : String) :
    ((∀ v ∈ ObsidianFormatter.extract_images_from_content content, mapping v = none) →
      HashNodeToObsidianConverter.download_content_images content mapping = content) ∧
    HashNodeToObsidianConverter.download_content_images content (fun _ => none) = content ∧
    (ObsidianFormatter.extract_images_from_content content = [u] →
      HashNodeToObsidianConverter.download_content_images content
        (fun v => if v == u then some r else none) = pyReplace u r content) ∧
    (ObsidianFormatter.extract_images_from_content content = [u1, u2] →
      mapping u1 = some r1 → mapping u2 = some r2 →
      HashNodeToObsidianConverter.download_content_images content mapping =
        pyReplace u2 r2 (pyReplace u1 r1 content)) ∧
    (ObsidianFormatter.extract_images_from_content content = [u1, u2] →
      mapping u1 = none → mapping u2 = some r2 →
      HashNodeToObsidianConverter.download_content_images content mapping =
        pyReplace u2 r2 content) ∧
    HashNodeToObsidianConverter.download_content_images
      "![img](https://cdn.example.com/a.png)"
      (fun v => if v == "https://cdn.example.com/a.png" then
        some "./images/posts/foo/a.png" else none) =
      "![img](./images/posts/foo/a.png)" := by
  have hnonempty : ∀ (xs : List String),
      ObsidianFormatter.extract_images_from_content content = xs → xs ≠ [] →
      content.isEmpty = false := by
    intro xs hx hne
    by_cases hc : content.isEmpty = true
    · rw [(String.isEmpty_iff content).mp hc] at hx
      rw [show ObsidianFormatter.extract_images_from_content "" = [] from by decide] at hx
      exact absurd hx.symm hne
    · exact Bool.not_eq_true _ ▸ hc
  refine ⟨download_unmapped content mapping, download_unmapped content _ (fun _ _ => rfl),
    ?_, ?_, ?_, by decide⟩
  · intro hx
    have hc := hnonempty [u] hx (by simp)
    simp [HashNodeToObsidianConverter.download_content_images, hc, hx]
  · intro hx h1 h2
    have hc := hnonempty [u1, u2] hx (by simp)
    simp [HashNodeToObsidianConverter.download_content_images, hc, hx, h1, h2]
  · intro hx h1 h2
    have hc := hnonempty [u1, u2] hx (by simp)
    simp [HashNodeToObsidianConverter.download_content_images, hc, hx, h1, h2]

/-- Witness for the amended claim C9: the spec's example rewrite equals the
full literal replacement, and the counterexample body rewrites as the
left-to-right composition of its two passes. -/
theorem claim_c9_witness :
    HashNodeToObsidianConverter.download_content_images
      "![img](https://cdn.example.com/a.png)"
      (fun v => if v == "https://cdn.example.com/a.png" then
        some "./images/posts/foo/a.png" else none) =
      pyReplace "https://cdn.example.com/a.png" "./images/posts/foo/a.png"
        "![img](https://cdn.example.com/a.png)" ∧
    HashNodeToObsidianConverter.download_content_images
      "![a](https://x.com/a.png) ![b](https://x.com/a.pngx)"
      (fun v => if v == "https://x.com/a.png" then some "./images/a.png"
        else if v == "https://x.com/a.pngx" then some "./images/b.png" else none) =
      pyReplace "https://x.com/a.pngx" "./images/b.png"
        (pyReplace "https://x.com/a.png" "./images/a.png"
          "![a](https://x.com/a.png) ![b](https://x.com/a.pngx)") := by
  constructor
  · exact (claim_c9_amended "![img](https://cdn.example.com/a.png)"
      (fun v => if v == "https://cdn.example.com/a.png" then
        some "./images/posts/foo/a.png" else none)
      "https://cdn.example.com/a.png" "./images/posts/foo/a.png" "" "" "" "").2.2.1
      (by decide)
  · exact (claim_c9_amended "![a](https://x.com/a.png) ![b](https://x.com/a.pngx)"
      (fun v => if v == "https://x.com/a.png" then some "./images/a.png"
        else if v == "https://x.com/a.pngx" then some "./images/b.png" else none)
      "" "" "https://x.com/a.png" "https://x.com/a.pngx"
      "./images/a.png" "./images/b.png").2.2.2.1 (by decide) (by decide) (by decide)

/-! ## Claim C2 (missing enrichment and the pipeline) -/

theorem find?_append_eq {α : Type} (p : α → Bool) (l₁ l₂ : List α) :
    (l₁ ++ l₂).find? p = match l₁.find? p with
      | some x => some x
      | none => l₂.find? p := by
  induction l₁ with
  | nil => rfl
  | cons a t ih =>
    cases ha : p a with
    | true =>
      rw [List.cons_append, List.find?_cons_of_pos _ ha, List.find?_cons_of_pos _ ha]
    | false =>
      rw [List.cons_append, List.find?_cons_of_neg _ (by simp [ha]),
        List.find?_cons_of_neg _ (by simp [ha]), ih]

theorem dictGet_cons (k : String) (v : EnrichedPost) (m : List (String × EnrichedPost))
    (key : String) :
    dictGet ((k, v) :: m) key = match dictGet m key with
      | some r => some r
      | none => if k == key then some v else none := by
  unfold dictGet
  rw [List.reverse_cons, find?_append_eq]
  cases hf : m.reverse.find? (fun kv => kv.1 == key) with
  | some kv => rfl
  | none =>
    cases hk : (k == key) with
    | true => simp [List.find?, hk]
    | false => simp [List.find?, hk]

theorem fallback_lookup_isSome (posts : List RawPost) (p : RawPost) (hp : p ∈ posts) :
    (dictGet (HashNodeEnricher.create_fallback_enrichment posts) p.id).isSome = true := by
  unfold dictGet
  cases hfind : (HashNodeEnricher.create_fallback_enrichment posts).reverse.find?
      (fun kv => kv.1 == p.id) with
  | some kv => rfl
  | none =>
    exfalso
    rw [List.find?_eq_none] at hfind
    have hx : (p.id, HashNodeEnricher.fallback_record p) ∈
        (HashNodeEnricher.create_fallback_enrichment posts).reverse := by
      rw [List.mem_reverse]
      exact List.mem_map_of_mem _ hp
    have := hfind _ hx
    simp at this

theorem dictGet_fallback_none (posts : List RawPost) (k : String)
    (hk : k ∉ posts.map RawPost.id) :
    dictGet (HashNodeEnricher.create_fallback_enrichment posts) k = none := by
  unfold dictGet
  have hfind : (HashNodeEnricher.create_fallback_enrichment posts).reverse.find?
      (fun kv => kv.1 == k) = none := by
    rw [List.find?_eq_none]
    intro x hx hpx
    rw [List.mem_reverse] at hx
    obtain ⟨q, hq, hqe⟩ := List.mem_map.mp hx
    rw [← hqe] at hpx
    have hqk : q.id = k := by simpa using hpx
    exact hk (hqk ▸ List.mem_map_of_mem RawPost.id hq)
  rw [hfind]

theorem dictGet_fallback_lookup (posts : List RawPost)
    (hnd : (posts.map RawPost.id).Nodup) (p : RawPost) (hp : p ∈ posts) :
    dictGet (HashNodeEnricher.create_fallback_enrichment posts) p.id =
      some (HashNodeEnricher.fallback_record p) := by
  induction posts with
  | nil => exact absurd hp (by simp)
  | cons q rest ih =>
    rw [List.map_cons, List.nodup_cons] at hnd
    rw [show HashNodeEnricher.create_fallback_enrichment (q :: rest) =
      (q.id, HashNodeEnricher.fallback_record q) ::
        HashNodeEnricher.create_fallback_enrichment rest from rfl, dictGet_cons]
    rcases List.mem_cons.mp hp with he | hm
    · subst he
      rw [dictGet_fallback_none rest p.id hnd.1]
      simp
    · rw [ih hnd.2 hm]

theorem dictGet_fallback_mem (posts : List RawPost) (k : String) (r : EnrichedPost)
    (hr : dictGet (HashNodeEnricher.create_fallback_enrichment posts) k = some r) :
    ∃ q ∈ posts, r = HashNodeEnricher.fallback_record q := by
  unfold dictGet at hr
  cases hf : (HashNodeEnricher.create_fallback_enrichment posts).reverse.find?
      (fun kv => kv.1 == k) with
  | none => rw [hf] at hr; exact absurd hr (by simp)
  | some kv =>
    rw [hf] at hr
    have hkv := List.mem_of_find?_eq_some hf
    rw [List.mem_reverse] at hkv
    obtain ⟨q, hq, hqe⟩ := List.mem_map.mp hkv
    refine ⟨q, hq, ?_⟩
    rw [← hqe] at hr
    exact (Option.some.inj hr).symm

theorem dictGet_enrich_mem (fetch : String → Option EnrichedPost) (ids : List String)
    (k : String) (r : EnrichedPost)
    (hr : dictGet (HashNodeEnricher.enrich_posts fetch true ids) k = some r) :
    ∃ pid, fetch pid = some r := by
  unfold dictGet at hr
  cases hf : (HashNodeEnricher.enrich_posts fetch true ids).reverse.find?
      (fun kv => kv.1 == k) with
  | none => rw [hf] at hr; exact absurd hr (by simp)
  | some kv =>
    rw [hf] at hr
    have hkv := List.mem_of_find?_eq_some hf
    rw [List.mem_reverse] at hkv
    rw [show HashNodeEnricher.enrich_posts fetch true ids =
      ids.filterMap (fun pid => (fetch pid).map (fun e => (pid, e))) from rfl] at hkv
    obtain ⟨pid, hpid, hmap⟩ := List.mem_filterMap.mp hkv
    cases hfe : fetch pid with
    | none => rw [hfe] at hmap; exact absurd hmap (by simp)
    | some e =>
      rw [hfe] at hmap
      refine ⟨pid, ?_⟩
      rw [hfe]
      have hkve : (pid, e) = kv := Option.some.inj hmap
      rw [← hkve] at hr
      exact congrArg some (Option.some.inj hr)

theorem transform_post_some_of_ne (today : String) (isoFmt : String → Option String)
    (p : RawPost) (e : EnrichedPost) (h : e.coverImage ≠ some CoverImage.pyNone) :
    (ObsidianTransformer.transform_post today isoFmt p e).isSome = true := by
  cases hc : e.coverImage with
  | none => simp [ObsidianTransformer.transform_post, hc]
  | some cv =>
    cases cv with
    | pyNone => exact absurd hc h
    | obj url => simp [ObsidianTransformer.transform_post, hc]

theorem transform_post_fallback_isSome (today : String) (isoFmt : String → Option String)
    (p q : RawPost) :
    (ObsidianTransformer.transform_post today isoFmt p
      (HashNodeEnricher.fallback_record q)).isSome = truthyS q.coverImage := by
  cases hq : truthyS q.coverImage with
  | true =>
    have hc : (HashNodeEnricher.fallback_record q).coverImage =
        some (CoverImage.obj q.coverImage) := by
      simp [HashNodeEnricher.fallback_record, hq]
    simp [ObsidianTransformer.transform_post, hc]
  | false =>
    have hc : (HashNodeEnricher.fallback_record q).coverImage = some CoverImage.pyNone := by
      simp [HashNodeEnricher.fallback_record, hq]
    simp [ObsidianTransformer.transform_post, hc]

theorem transformLoop_all_some (today : String) (isoFmt : String → Option String)
    (E : List (String × EnrichedPost)) (l : List RawPost)
    (h : ∀ p ∈ l, ∀ r, dictGet E p.id = some r →
      (ObsidianTransformer.transform_post today isoFmt p r).isSome = true) :
    ∃ out, HashNodeToObsidianConverter.transformLoop today isoFmt E l = some out ∧
      out.length = (l.filter (fun p => (dictGet E p.id).isSome)).length := by
  induction l with
  | nil => exact ⟨[], rfl, rfl⟩
  | cons p rest ih =>
    obtain ⟨out, hout, hlen⟩ := ih (fun q hq r hr => h q (List.mem_cons_of_mem _ hq) r hr)
    cases hd : dictGet E p.id with
    | none =>
      refine ⟨out, ?_, ?_⟩
      · simp only [HashNodeToObsidianConverter.transformLoop, hd]
        exact hout
      · rw [List.filter_cons]
        simp [hd, hlen]
    | some r =>
      have hs := h p (List.mem_cons_self p rest) r hd
      cases ht : ObsidianTransformer.transform_post today isoFmt p r with
      | none => rw [ht] at hs; exact absurd hs (by simp)
      | some tp =>
        refine ⟨tp :: out, ?_, ?_⟩
        · simp [HashNodeToObsidianConverter.transformLoop, hd, ht, hout]
        · rw [List.filter_cons]
          simp [hd, hlen]

theorem transformLoop_abort (today : String) (isoFmt : String → Option String)
    (E : List (String × EnrichedPost)) (l : List RawPost)
    (hall : ∀ q ∈ l, (dictGet E q.id).isSome = true)
    (hbad : ∃ p ∈ l, ∃ r, dictGet E p.id = some r ∧
      ObsidianTransformer.transform_post today isoFmt p r = none) :
    HashNodeToObsidianConverter.transformLoop today isoFmt E l = none := by
  induction l with
  | nil => obtain ⟨p, hp, _⟩ := hbad; exact absurd hp (by simp)
  | cons q rest ih =>
    have hq := hall q (List.mem_cons_self q rest)
    cases hd : dictGet E q.id with
    | none => rw [hd] at hq; exact absurd hq (by simp)
    | some rq =>
      cases ht : ObsidianTransformer.transform_post today isoFmt q rq with
      | none => simp only [HashNodeToObsidianConverter.transformLoop, hd, ht]
      | some tp =>
        obtain ⟨p, hp, r, hr, htp⟩ := hbad
        have hp' : p ∈ rest := by
          rcases List.mem_cons.mp hp with he | hm
          · exfalso
            subst he
            rw [hd] at hr
            rw [← Option.some.inj hr] at htp
            exact absurd (ht.symm.trans htp) (by simp)
          · exact hm
        have hrest := ih (fun x hx => hall x (List.mem_cons_of_mem _ hx))
          ⟨p, hp', r, hr, htp⟩
        simp [HashNodeToObsidianConverter.transformLoop, hd, ht, hrest]

theorem convert_transform_skip (can_enrich : Bool) (fetch : String → Option EnrichedPost)
    (today : String) (isoFmt : String → Option String) (posts : List RawPost) :
    HashNodeToObsidianConverter.convert_transform true can_enrich fetch today isoFmt posts =
      HashNodeToObsidianConverter.transformLoop today isoFmt
        (HashNodeEnricher.create_fallback_enrichment posts) posts := rfl

theorem convert_transform_nokey (fetch : String → Option EnrichedPost)
    (today : String) (isoFmt : String → Option String) (posts : List RawPost) :
    HashNodeToObsidianConverter.convert_transform false false fetch today isoFmt posts =
      HashNodeToObsidianConverter.transformLoop today isoFmt
        (HashNodeEnricher.create_fallback_enrichment posts) posts := rfl

theorem convert_transform_enabled (fetch : String → Option EnrichedPost)
    (today : String) (isoFmt : String → Option String) (posts : List RawPost) :
    HashNodeToObsidianConverter.convert_transform false true fetch today isoFmt posts =
      HashNodeToObsidianConverter.transformLoop today isoFmt
        (HashNodeEnricher.enrich_posts fetch true (posts.map (fun p => p.id))) posts := rfl

theorem fallback_run_all (today : String) (isoFmt : String → Option String)
    (posts : List RawPost) (hcov : ∀ p ∈ posts, truthyS p.coverImage = true) :
    ∃ out, HashNodeToObsidianConverter.transformLoop today isoFmt
      (HashNodeEnricher.create_fallback_enrichment posts) posts = some out ∧
      out.length = posts.length := by
  have hyp : ∀ p ∈ posts, ∀ r,
      dictGet (HashNodeEnricher.create_fallback_enrichment posts) p.id = some r →
      (ObsidianTransformer.transform_post today isoFmt p r).isSome = true := by
    intro p hp r hr
    obtain ⟨q, hq, hre⟩ := dictGet_fallback_mem posts p.id r hr
    rw [hre, transform_post_fallback_isSome]
    exact hcov q hq
  obtain ⟨out, hout, hlen⟩ := transformLoop_all_some today isoFmt _ posts hyp
  refine ⟨out, hout, ?_⟩
  rw [hlen, List.filter_eq_self.mpr (fun p hp => fallback_lookup_isSome posts p hp)]

theorem fallback_run_abort (today : String) (isoFmt : String → Option String)
    (posts : List RawPost) (hnd : (posts.map RawPost.id).Nodup)
    (hbad : ∃ p ∈ posts, truthyS p.coverImage = false) :
    HashNodeToObsidianConverter.transformLoop today isoFmt
      (HashNodeEnricher.create_fallback_enrichment posts) posts = none := by
  obtain ⟨p, hp, hpc⟩ := hbad
  refine transformLoop_abort today isoFmt _ posts
    (fun q hq => fallback_lookup_isSome posts q hq)
    ⟨p, hp, HashNodeEnricher.fallback_record p, dictGet_fallback_lookup posts hnd p hp, ?_⟩
  have hi := transform_post_fallback_isSome today isoFmt p p
  rw [hpc] at hi
  cases ht : ObsidianTransformer.transform_post today isoFmt p
      (HashNodeEnricher.fallback_record p) with
  | none => rfl
  | some tp => rw [ht] at hi; exact absurd hi (by simp)

theorem enabled_run (today : String) (isoFmt : String → Option String)
    (fetch : String → Option EnrichedPost) (posts : List RawPost)
    (hsafe : ∀ pid r, fetch pid = some r → r.coverImage ≠ some CoverImage.pyNone) :
    ∃ out, HashNodeToObsidianConverter.transformLoop today isoFmt
      (HashNodeEnricher.enrich_posts fetch true (posts.map (fun p => p.id))) posts =
        some out ∧
      out.length = (posts.filter (fun p =>
        (dictGet (HashNodeEnricher.enrich_posts fetch true (posts.map (fun q => q.id)))
          p.id).isSome)).length := by
  apply transformLoop_all_some
  intro p hp r hr
  obtain ⟨pid, hpid⟩ := dictGet_enrich_mem fetch _ p.id r hr
  exact transform_post_some_of_ne today isoFmt p r (hsafe pid r hpid)

/-- Claim C2's counterexample: with enrichment enabled (an API key present,
no skip flag) and the per-post fetch failing, `convert` hits its
`if not enriched_post: continue` guard and the loaded post is dropped from
the run (first two conjuncts); and with no enrichment source at all, the
fallback record synthesized for a post without a cover image stores Python
`None` under `coverImage`, so `transform_post` raises an uncaught
`AttributeError` and the whole run aborts (third conjunct). -/
theorem claim_c2_counterexample :
    HashNodeToObsidianConverter.convert_transform false true (fun _ => none)
      "2024-01-01" (fun _ => none) [rawPostC] = some [] ∧
    ([] : List ObsidianPost).length ≠ ([rawPostC] : List RawPost).length ∧
    HashNodeToObsidianConverter.convert_transform true true (fun _ => none)
      "2024-01-01" (fun _ => none) [rawPostW] = none := by
  exact ⟨rfl, by decide, rfl⟩

/-- Claim C2 as amended: when there is no enrichment source at all (the skip
flag, or no API key), a fallback record is synthesized for every loaded post
and — provided every loaded post carries a cover image — every post is
transformed and none is dropped; but if any loaded post (ids distinct) lacks
a cover image, its fallback record stores Python `None` under `coverImage`
and the run aborts with an uncaught `AttributeError` instead of producing
posts. When enrichment is attempted and no fetched record stores `None`
under `coverImage`, exactly the posts whose per-post fetch succeeded
survive: a post whose record is absent is skipped with a warning (the run
continues). -/
theorem claim_c2_amended (skip_enrichment can_enrich : Bool)
    (fetch : String → Option EnrichedPost) (today : String)
    (isoFmt : String → Option String) (posts : List RawPost) :
    ((skip_enrichment || !can_enrich) = true →
      (∀ p ∈ posts, truthyS p.coverImage = true) →
      ∃ out, HashNodeToObsidianConverter.convert_transform skip_enrichment can_enrich
        fetch today isoFmt posts = some out ∧ out.length = posts.length) ∧
    ((skip_enrichment || !can_enrich) = true →
      (posts.map RawPost.id).Nodup →
      (∃ p ∈ posts, truthyS p.coverImage = false) →
      HashNodeToObsidianConverter.convert_transform skip_enrichment can_enrich
        fetch today isoFmt posts = none) ∧
    (skip_enrichment = false → can_enrich = true →
      (∀ pid r, fetch pid = some r → r.coverImage ≠ some CoverImage.pyNone) →
      ∃ out, HashNodeToObsidianConverter.convert_transform skip_enrichment can_enrich
        fetch today isoFmt posts = some out ∧
        out.length = (posts.filter (fun p =>
          (dictGet (HashNodeEnricher.enrich_posts fetch true (posts.map (fun q => q.id)))
            p.id).isSome)).length) := by
  refine ⟨?_, ?_, ?_⟩
  · intro hor hcov
    cases skip_enrichment with
    | true =>
      rw [convert_transform_skip]
      exact fallback_run_all today isoFmt posts hcov
    | false =>
      cases can_enrich with
      | true => simp at hor
      | false =>
        rw [convert_transform_nokey]
        exact fallback_run_all today isoFmt posts hcov
  · intro hor hnd hbad
    cases skip_enrichment with
    | true =>
      rw [convert_transform_skip]
      exact fallback_run_abort today isoFmt posts hnd hbad
    | false =>
      cases can_enrich with
      | true => simp at hor
      | false =>
        rw [convert_transform_nokey]
        exact fallback_run_abort today isoFmt posts hnd hbad
  · intro hskip hcan hsafe
    subst hskip
    subst hcan
    rw [convert_transform_enabled]
    exact enabled_run today isoFmt fetch posts hsafe

/-- Witness for the amended claim C2: with the skip flag set and a loaded
post that carries a cover image, the run succeeds and the post is
transformed via fallback enrichment rather than dropped. -/
theorem claim_c2_witness :
    ∃ out, HashNodeToObsidianConverter.convert_transform true true (fun _ => none)
      "2024-01-01" (fun _ => none) [rawPostC] = some out ∧
      out.length = ([rawPostC] : List RawPost).length :=
  (claim_c2_amended true true (fun _ => none) "2024-01-01" (fun _ => none) [rawPostC]).1
    rfl (by decide)

/-! ## Claim C5 (frontmatter layout and conditional emission) -/

theorem strAppend_assoc (a b c : String) : (a ++ b) ++ c = a ++ (b ++ c) := by
  cases a with
  | mk ad =>
    cases b with
    | mk bd =>
      cases c with
      | mk cd => exact congrArg String.mk (List.append_assoc ad bd cd)

theorem isPrefixOf_append_cases {pre head : List Char} (tail : List Char)
    (h : pre.isPrefixOf (head ++ tail) = true) :
    pre.isPrefixOf head = true ∨ head.isPrefixOf pre = true := by
  induction pre generalizing head with
  | nil => left; simp [List.isPrefixOf]
  | cons c pre' ih =>
    cases head with
    | nil => right; simp [List.isPrefixOf]
    | cons d head' =>
      simp only [List.cons_append, List.isPrefixOf, Bool.and_eq_true] at h ⊢
      rcases ih h.2 with hl | hr
      · exact Or.inl ⟨h.1, hl⟩
      · exact Or.inr ⟨by rw [BEq.comm] at h; exact h.1, hr⟩

theorem strStarts_append_false (pre head tail : String)
    (h1 : strStarts pre head = false) (h2 : strStarts head pre = false) :
    strStarts pre (head ++ tail) = false := by
  unfold strStarts at h1 h2 ⊢
  rw [String.data_append]
  cases hp : pre.data.isPrefixOf (head.data ++ tail.data) with
  | false => rfl
  | true =>
    rcases isPrefixOf_append_cases tail.data hp with hc | hc
    · rw [h1] at hc; exact absurd hc (by simp)
    · rw [h2] at hc; exact absurd hc (by simp)

theorem strStarts_append3_false (pre head mid tail : String)
    (h1 : strStarts pre head = false) (h2 : strStarts head pre = false) :
    strStarts pre (head ++ mid ++ tail) = false := by
  rw [strAppend_assoc]
  exact strStarts_append_false pre head (mid ++ tail) h1 h2

theorem mem_ite_nil {c : Prop} [Decidable c] {xs : List String} {a : String} :
    (a ∈ if c then xs else []) ↔ c ∧ a ∈ xs := by
  split
  · next hc => simp [hc]
  · next hc => simp [hc]

theorem fieldLines_cases (p : ObsidianPost) (l : String)
    (hl : l ∈ ObsidianFormatter.fieldLines p) :
    l = "title: \"" ++ p.title ++ "\"" ∨
    ((!p.subtitle.isEmpty) = true ∧ l = "subtitle: \"" ++ p.subtitle ++ "\"") ∨
    ((!p.slug.isEmpty) = true ∧ l = "slug: \"" ++ p.slug ++ "\"") ∨
    ((!p.description.isEmpty) = true ∧
      l = "description: " ++ ObsidianFormatter.format_description_yaml p.description) ∨
    ((!p.date.isEmpty) = true ∧ l = "date: " ++ p.date) ∨
    ((!p.updated.isEmpty) = true ∧ l = "updated: " ++ p.updated) ∨
    ((!p.status.isEmpty) = true ∧ (l = "status:" ∨ ∃ st ∈ p.status, "  - " ++ st = l)) ∨
    ((!p.tags.isEmpty) = true ∧ (l = "tags:" ∨ ∃ tg ∈ p.tags, "  - " ++ tg = l)) ∨
    (truthyS p.series = true ∧ l = "series: \"" ++ p.series.getD "" ++ "\"") ∨
    (p.reading_time ≠ 0 ∧ l = "reading_time: " ++ toString p.reading_time) ∨
    (truthyS p.cover_image = true ∧ l = "cover_image: \"" ++ p.cover_image.getD "" ++ "\"") := by
  simp only [ObsidianFormatter.fieldLines, List.mem_append, mem_ite_nil, List.mem_cons,
    List.mem_singleton, List.mem_map, List.not_mem_nil, or_false, false_or] at hl
  simp only [or_assoc] at hl
  exact hl

theorem manualFieldLines_cases (q : EleventyPost) (l : String)
    (hl : l ∈ ContentTransformer.manualFieldLines q) :
    l = "title: \"" ++ q.title ++ "\"" ∨
    l = "date: " ++ q.date ∨
    l = "permalink: \"" ++ q.permalink ++ "\"" ∨
    l = "layout: \"" ++ q.layout ++ "\"" ∨
    ((!q.excerpt.isEmpty) = true ∧ l = "excerpt: \"" ++ q.excerpt ++ "\"") ∨
    (truthyS q.coverImage = true ∧ l = "coverImage: \"" ++ q.coverImage.getD "" ++ "\"") ∨
    (q.readTime ≠ 0 ∧ l = "readTime: " ++ toString q.readTime) ∨
    ((!q.tags.isEmpty) = true ∧
      l = "tags: [" ++ joinComma (q.tags.map (fun tg => "\"" ++ tg ++ "\"")) ++ "]") ∨
    (truthyS q.series = true ∧ l = "series: \"" ++ q.series.getD "" ++ "\"") := by
  simp only [ContentTransformer.manualFieldLines, List.mem_append, mem_ite_nil, List.mem_cons,
    List.mem_singleton, List.not_mem_nil, or_false, false_or] at hl
  simp only [or_assoc] at hl
  exact hl

theorem joinLines_append_close (x : String) (L : List String) :
    joinLines ((x :: L) ++ ["---", ""]) = joinLines (x :: L) ++ "\n---\n" := by
  induction L generalizing x with
  | nil =>
    show (x ++ "\n") ++ (("---" ++ "\n") ++ "") = x ++ "\n---\n"
    rw [strAppend_assoc]
    exact congrArg (x ++ ·) (by rfl)
  | cons y L' ih =>
    show (x ++ "\n") ++ joinLines ((y :: L') ++ ["---", ""]) =
      ((x ++ "\n") ++ joinLines (y :: L')) ++ "\n---\n"
    rw [ih y]
    simp [strAppend_assoc]

theorem obsRender_layout (p : ObsidianPost) :
    ObsidianFormatter.generate_frontmatter_and_content p =
      "---\n" ++ joinLines (ObsidianFormatter.fieldLines p) ++ "\n---\n" ++ p.content := by
  have hunf : ObsidianFormatter.generate_frontmatter_and_content p =
      joinLines (["---"] ++ ObsidianFormatter.fieldLines p ++ ["---", ""]) ++ p.content := rfl
  rw [hunf]
  obtain ⟨x, L, hxL⟩ : ∃ x L, ObsidianFormatter.fieldLines p = x :: L := ⟨_, _, rfl⟩
  rw [hxL]
  rw [show joinLines (["---"] ++ (x :: L) ++ ["---", ""]) =
      ("---" ++ "\n") ++ joinLines ((x :: L) ++ ["---", ""]) from rfl]
  rw [joinLines_append_close x L]
  rw [show ("---" ++ "\n" : String) = "---\n" from rfl]
  simp [strAppend_assoc]

theorem manualRender_layout (q : EleventyPost) :
    ContentTransformer.generate_manual_markdown q =
      "---\n" ++ joinLines (ContentTransformer.manualFieldLines q) ++ "\n---\n" ++ q.content := by
  have hunf : ContentTransformer.generate_manual_markdown q =
      joinLines (["---"] ++ ContentTransformer.manualFieldLines q ++ ["---", ""]) ++ q.content := rfl
  rw [hunf]
  obtain ⟨x, L, hxL⟩ : ∃ x L, ContentTransformer.manualFieldLines q = x :: L := ⟨_, _, rfl⟩
  rw [hxL]
  rw [show joinLines (["---"] ++ (x :: L) ++ ["---", ""]) =
      ("---" ++ "\n") ++ joinLines ((x :: L) ++ ["---", ""]) from rfl]
  rw [joinLines_append_close x L]
  rw [show ("---" ++ "\n" : String) = "---\n" from rfl]
  simp [strAppend_assoc]

/-- Claim C5's counterexample: the rendered document places the body directly
after the closing `---` and a single newline — there is no blank line — and a
falsy required field (`title`) is still emitted, here as `title: ""`.  The
claimed layout `---\n<yaml>\n---\n\n<body>` is therefore impossible: it needs
one more newline than the rendered document contains. -/
theorem claim_c5_counterexample :
    ObsidianFormatter.generate_frontmatter_and_content obsPostW =
      "---\ntitle: \"\"\n---\nBODY" ∧
    ¬ ∃ yaml : String, ObsidianFormatter.generate_frontmatter_and_content obsPostW =
      "---\n" ++ yaml ++ "\n---\n\n" ++ "BODY" := by
  refine ⟨rfl, ?_⟩
  rintro ⟨yaml, h⟩
  have h2 : ("---\ntitle: \"\"\n---\nBODY" : String) =
      "---\n" ++ yaml ++ "\n---\n\n" ++ "BODY" := h
  have hc := congrArg (fun s : String => s.data.count '\n') h2
  simp only [String.data_append, List.count_append] at hc
  rw [show ("---\ntitle: \"\"\n---\nBODY" : String).data.count '\n' = 3 from by decide,
    show ("---\n" : String).data.count '\n' = 1 from by decide,
    show ("\n---\n\n" : String).data.count '\n' = 3 from by decide,
    show ("BODY" : String).data.count '\n' = 0 from by decide] at hc
  omega

/-- Claim C5 as amended: the rendered document is
`---\n<yaml-lines>\n---\n<body>` — a single newline, not a blank line,
separates the closing delimiter from the body — and the conditional
(optional) fields are omitted entirely when falsy, while the required fields
(`title` in the notes dialect; `title`, `date`, `permalink`, `layout` in the
site-generator dialect) are always emitted, even when falsy. -/
theorem claim_c5_amended (p : ObsidianPost) (q : EleventyPost) :
    (ObsidianFormatter.generate_frontmatter_and_content p =
      "---\n" ++ joinLines (ObsidianFormatter.fieldLines p) ++ "\n---\n" ++ p.content) ∧
    ("title: \"" ++ p.title ++ "\"") ∈ ObsidianFormatter.fieldLines p ∧
    (p.subtitle.isEmpty = true →
      ∀ l ∈ ObsidianFormatter.fieldLines p, strStarts "subtitle" l = false) ∧
    (p.slug.isEmpty = true →
      ∀ l ∈ ObsidianFormatter.fieldLines p, strStarts "slug" l = false) ∧
    (p.description.isEmpty = true →
      ∀ l ∈ ObsidianFormatter.fieldLines p, strStarts "description" l = false) ∧
    (p.date.isEmpty = true →
      ∀ l ∈ ObsidianFormatter.fieldLines p, strStarts "date" l = false) ∧
    (p.updated.isEmpty = true →
      ∀ l ∈ ObsidianFormatter.fieldLines p, strStarts "updated" l = false) ∧
    (p.status.isEmpty = true →
      ∀ l ∈ ObsidianFormatter.fieldLines p, strStarts "status" l = false) ∧
    (p.tags.isEmpty = true →
      ∀ l ∈ ObsidianFormatter.fieldLines p, strStarts "tags" l = false) ∧
    (truthyS p.series = false →
      ∀ l ∈ ObsidianFormatter.fieldLines p, strStarts "series" l = false) ∧
    (p.reading_time = 0 →
      ∀ l ∈ ObsidianFormatter.fieldLines p, strStarts "reading_time" l = false) ∧
    (truthyS p.cover_image = false →
      ∀ l ∈ ObsidianFormatter.fieldLines p, strStarts "cover_image" l = false) ∧
    (ContentTransformer.generate_manual_markdown q =
      "---\n" ++ joinLines (ContentTransformer.manualFieldLines q) ++ "\n---\n" ++ q.content) ∧
    ("title: \"" ++ q.title ++ "\"") ∈ ContentTransformer.manualFieldLines q ∧
    ("date: " ++ q.date) ∈ ContentTransformer.manualFieldLines q ∧
    ("permalink: \"" ++ q.permalink ++ "\"") ∈ ContentTransformer.manualFieldLines q ∧
    ("layout: \"" ++ q.layout ++ "\"") ∈ ContentTransformer.manualFieldLines q ∧
    (q.excerpt.isEmpty = true →
      ∀ l ∈ ContentTransformer.manualFieldLines q, strStarts "excerpt" l = false) ∧
    (truthyS q.coverImage = false →
      ∀ l ∈ ContentTransformer.manualFieldLines q, strStarts "coverImage" l = false) ∧
    (q.readTime = 0 →
      ∀ l ∈ ContentTransformer.manualFieldLines q, strStarts "readTime" l = false) ∧
    (q.tags.isEmpty = true →
      ∀ l ∈ ContentTransformer.manualFieldLines q, strStarts "tags" l = false) ∧
    (truthyS q.series = false →
      ∀ l ∈ ContentTransformer.manualFieldLines q, strStarts "series" l = false) := by
  refine ⟨obsRender_layout p, by simp [ObsidianFormatter.fieldLines],
    ?_, ?_, ?_, ?_, ?_, ?_, ?_, ?_, ?_, ?_,
    manualRender_layout q,
    by simp [ContentTransformer.manualFieldLines],
    by simp [ContentTransformer.manualFieldLines],
    by simp [ContentTransformer.manualFieldLines],
    by simp [ContentTransformer.manualFieldLines],
    ?_, ?_, ?_, ?_, ?_⟩ <;>
  intro h l hl <;>
  [rcases fieldLines_cases p l hl with hT | ⟨hc, he⟩ | ⟨hc, he⟩ | ⟨hc, he⟩ | ⟨hc, he⟩ |
    ⟨hc, he⟩ | ⟨hc, he | ⟨st, hst, he⟩⟩ | ⟨hc, he | ⟨st, hst, he⟩⟩ | ⟨hc, he⟩ | ⟨hc, he⟩ |
    ⟨hc, he⟩;
   rcases fieldLines_cases p l hl with hT | ⟨hc, he⟩ | ⟨hc, he⟩ | ⟨hc, he⟩ | ⟨hc, he⟩ |
    ⟨hc, he⟩ | ⟨hc, he | ⟨st, hst, he⟩⟩ | ⟨hc, he | ⟨st, hst, he⟩⟩ | ⟨hc, he⟩ | ⟨hc, he⟩ |
    ⟨hc, he⟩;
   rcases fieldLines_cases p l hl with hT | ⟨hc, he⟩ | ⟨hc, he⟩ | ⟨hc, he⟩ | ⟨hc, he⟩ |
    ⟨hc, he⟩ | ⟨hc, he | ⟨st, hst, he⟩⟩ | ⟨hc, he | ⟨st, hst, he⟩⟩ | ⟨hc, he⟩ | ⟨hc, he⟩ |
    ⟨hc, he⟩;
   rcases fieldLines_cases p l hl with hT | ⟨hc, he⟩ | ⟨hc, he⟩ | ⟨hc, he⟩ | ⟨hc, he⟩ |
    ⟨hc, he⟩ | ⟨hc, he | ⟨st, hst, he⟩⟩ | ⟨hc, he | ⟨st, hst, he⟩⟩ | ⟨hc, he⟩ | ⟨hc, he⟩ |
    ⟨hc, he⟩;
   rcases fieldLines_cases p l hl with hT | ⟨hc, he⟩ | ⟨hc, he⟩ | ⟨hc, he⟩ | ⟨hc, he⟩ |
    ⟨hc, he⟩ | ⟨hc, he | ⟨st, hst, he⟩⟩ | ⟨hc, he | ⟨st, hst, he⟩⟩ | ⟨hc, he⟩ | ⟨hc, he⟩ |
    ⟨hc, he⟩;
   rcases fieldLines_cases p l hl with hT | ⟨hc, he⟩ | ⟨hc, he⟩ | ⟨hc, he⟩ | ⟨hc, he⟩ |
    ⟨hc, he⟩ | ⟨hc, he | ⟨st, hst, he⟩⟩ | ⟨hc, he | ⟨st, hst, he⟩⟩ | ⟨hc, he⟩ | ⟨hc, he⟩ |
    ⟨hc, he⟩;
   rcases fieldLines_cases p l hl with hT | ⟨hc, he⟩ | ⟨hc, he⟩ | ⟨hc, he⟩ | ⟨hc, he⟩ |
    ⟨hc, he⟩ | ⟨hc, he | ⟨st, hst, he⟩⟩ | ⟨hc, he | ⟨st, hst, he⟩⟩ | ⟨hc, he⟩ | ⟨hc, he⟩ |
    ⟨hc, he⟩;
   rcases fieldLines_cases p l hl with hT | ⟨hc, he⟩ | ⟨hc, he⟩ | ⟨hc, he⟩ | ⟨hc, he⟩ |
    ⟨hc, he⟩ | ⟨hc, he | ⟨st, hst, he⟩⟩ | ⟨hc, he | ⟨st, hst, he⟩⟩ | ⟨hc, he⟩ | ⟨hc, he⟩ |
    ⟨hc, he⟩;
   rcases fieldLines_cases p l hl with hT | ⟨hc, he⟩ | ⟨hc, he⟩ | ⟨hc, he⟩ | ⟨hc, he⟩ |
    ⟨hc, he⟩ | ⟨hc, he | ⟨st, hst, he⟩⟩ | ⟨hc, he | ⟨st, hst, he⟩⟩ | ⟨hc, he⟩ | ⟨hc, he⟩ |
    ⟨hc, he⟩;
   rcases fieldLines_cases p l hl with hT | ⟨hc, he⟩ | ⟨hc, he⟩ | ⟨hc, he⟩ | ⟨hc, he⟩ |
    ⟨hc, he⟩ | ⟨hc, he | ⟨st, hst, he⟩⟩ | ⟨hc, he | ⟨st, hst, he⟩⟩ | ⟨hc, he⟩ | ⟨hc, he⟩ |
    ⟨hc, he⟩;
   rcases manualFieldLines_cases q l hl with hT | hT | hT | hT | ⟨hc, he⟩ | ⟨hc, he⟩ |
    ⟨hc, he⟩ | ⟨hc, he⟩ | ⟨hc, he⟩;
   rcases manualFieldLines_cases q l hl with hT | hT | hT | hT | ⟨hc, he⟩ | ⟨hc, he⟩ |
    ⟨hc, he⟩ | ⟨hc, he⟩ | ⟨hc, he⟩;
   rcases manualFieldLines_cases q l hl with hT | hT | hT | hT | ⟨hc, he⟩ | ⟨hc, he⟩ |
    ⟨hc, he⟩ | ⟨hc, he⟩ | ⟨hc, he⟩;
   rcases manualFieldLines_cases q l hl with hT | hT | hT | hT | ⟨hc, he⟩ | ⟨hc, he⟩ |
    ⟨hc, he⟩ | ⟨hc, he⟩ | ⟨hc, he⟩;
   rcases manualFieldLines_cases q l hl with hT | hT | hT | hT | ⟨hc, he⟩ | ⟨hc, he⟩ |
    ⟨hc, he⟩ | ⟨hc, he⟩ | ⟨hc, he⟩] <;>
  first
    | (subst hT
       first
         | exact strStarts_append3_false _ _ _ _ (by decide) (by decide)
         | exact strStarts_append_false _ _ _ (by decide) (by decide))
    | (subst he
       first
         | decide
         | exact strStarts_append3_false _ _ _ _ (by decide) (by decide)
         | exact strStarts_append_false _ _ _ (by decide) (by decide))
    | exact absurd hc (by simp [h])

/-- Witness for the amended claim C5: at a post whose optional fields are all
falsy the subtitle-omission clause applies to the one emitted line, and the
site-generator renderer produces the single-newline layout at a concrete
post. -/
theorem claim_c5_witness :
    obsPostW.subtitle.isEmpty = true ∧
    strStarts "subtitle" "title: \"\"" = false ∧
    ContentTransformer.generate_manual_markdown eleventyPostW =
      "---\n" ++ joinLines (ContentTransformer.manualFieldLines eleventyPostW) ++
        "\n---\n" ++ eleventyPostW.content := by
  refine ⟨by decide, ?_, ?_⟩
  · exact (claim_c5_amended obsPostW eleventyPostW).2.2.1 (by decide) "title: \"\"" (by decide)
  · exact (claim_c5_amended obsPostW eleventyPostW).2.2.2.2.2.2.2.2.2.2.2.2.1

/-! ## Claims C7 and C10 (slugify) -/

theorem pyLowerChar_idem (c : Char) : pyLowerChar (pyLowerChar c) = pyLowerChar c := by
  cases hf : lowerTable.find? (fun kv => kv.1 == c) with
  | none =>
    have h : pyLowerChar c = c := by simp [pyLowerChar, hf]
    rw [h]
    exact h
  | some kv =>
    have h : pyLowerChar c = kv.2 := by simp [pyLowerChar, hf]
    have hm : kv ∈ lowerTable := List.mem_of_find?_eq_some hf
    have hl : pyLowerChar kv.2 = kv.2 := by fin_cases hm <;> decide
    rw [h, hl]

theorem slugNormal_cons (c : Char) (R : List Char) :
    slugNormal (c :: R) = true ↔
      pyIsSpace c = false ∧ (∀ d, R.head? = some d → (c == '-' && d == '-') = false) ∧
        slugNormal R = true := by
  cases R with
  | nil => simp [slugNormal]
  | cons d R' =>
    simp only [slugNormal, Bool.and_eq_true, Bool.not_eq_true']
    constructor
    · rintro ⟨⟨h1, h2⟩, h3⟩
      refine ⟨h1, ?_, h3⟩
      intro e he
      rw [List.head?_cons] at he
      injection he with hde
      subst hde
      exact h2
    · rintro ⟨h1, h2, h3⟩
      exact ⟨⟨h1, h2 d rfl⟩, h3⟩

theorem slugNormal_tail {c : Char} {t : List Char} (h : slugNormal (c :: t) = true) :
    slugNormal t = true :=
  ((slugNormal_cons c t).mp h).2.2

theorem mem_collapseHyAux {c : Char} : ∀ (b : Bool) (l : List Char),
    c ∈ collapseHyAux b l → c = '-' ∨ c ∈ l := by
  intro b l
  induction l generalizing b with
  | nil => simp [collapseHyAux]
  | cons d t ih =>
    intro hc
    by_cases hd : hyphenOrSpace d = true
    · cases b with
      | true =>
        rw [show collapseHyAux true (d :: t) = collapseHyAux true t from by
          simp [collapseHyAux, hd]] at hc
        rcases ih true hc with h | h
        · exact Or.inl h
        · exact Or.inr (List.mem_cons_of_mem d h)
      | false =>
        rw [show collapseHyAux false (d :: t) = '-' :: collapseHyAux true t from by
          simp [collapseHyAux, hd]] at hc
        rcases List.mem_cons.mp hc with h | h
        · exact Or.inl h
        · rcases ih true h with h2 | h2
          · exact Or.inl h2
          · exact Or.inr (List.mem_cons_of_mem d h2)
    · rw [show collapseHyAux b (d :: t) = d :: collapseHyAux false t from by
        simp [collapseHyAux, hd]] at hc
      rcases List.mem_cons.mp hc with h | h
      · exact Or.inr (h ▸ List.mem_cons_self d t)
      · rcases ih false h with h2 | h2
        · exact Or.inl h2
        · exact Or.inr (List.mem_cons_of_mem d h2)

theorem collapseHyAux_true_head : ∀ (t : List Char) (d : Char),
    (collapseHyAux true t).head? = some d → hyphenOrSpace d = false := by
  intro t
  induction t with
  | nil => intro d hd; simp [collapseHyAux] at hd
  | cons c t' ih =>
    intro d hd
    by_cases hc : hyphenOrSpace c = true
    · rw [show collapseHyAux true (c :: t') = collapseHyAux true t' from by
        simp [collapseHyAux, hc]] at hd
      exact ih d hd
    · rw [show collapseHyAux true (c :: t') = c :: collapseHyAux false t' from by
        simp [collapseHyAux, hc]] at hd
      rw [List.head?_cons] at hd
      injection hd with hcd
      subst hcd
      simpa using hc

theorem slugNormal_collapseHyAux : ∀ (l : List Char) (b : Bool),
    slugNormal (collapseHyAux b l) = true := by
  intro l
  induction l with
  | nil => intro b; rfl
  | cons c t ih =>
    intro b
    by_cases hc : hyphenOrSpace c = true
    · cases b with
      | true =>
        rw [show collapseHyAux true (c :: t) = collapseHyAux true t from by
          simp [collapseHyAux, hc]]
        exact ih true
      | false =>
        rw [show collapseHyAux false (c :: t) = '-' :: collapseHyAux true t from by
          simp [collapseHyAux, hc]]
        rw [slugNormal_cons]
        refine ⟨by decide, fun d hd => ?_, ih true⟩
        have h2 := collapseHyAux_true_head t d hd
        have h3 : (d == '-') = false := by
          simp only [hyphenOrSpace, Bool.or_eq_false_iff] at h2
          exact h2.1
        simp [h3]
    · rw [show collapseHyAux b (c :: t) = c :: collapseHyAux false t from by
        simp [collapseHyAux, hc]]
      rw [slugNormal_cons]
      have h2 : hyphenOrSpace c = false := by simpa using hc
      simp only [hyphenOrSpace, Bool.or_eq_false_iff] at h2
      exact ⟨h2.2, fun d hd => by simp [h2.1], ih false⟩

theorem slugNormal_dropWhile (p : Char → Bool) : ∀ l : List Char,
    slugNormal l = true → slugNormal (l.dropWhile p) = true := by
  intro l
  induction l with
  | nil => intro h; exact h
  | cons c t ih =>
    intro h
    by_cases hp : p c = true
    · rw [List.dropWhile_cons, if_pos hp]
      exact ih (slugNormal_tail h)
    · rw [List.dropWhile_cons, if_neg hp]
      exact h

theorem dropTrailing_head? (p : Char → Bool) : ∀ (l : List Char) (d : Char),
    (dropTrailing p l).head? = some d → l.head? = some d := by
  intro l
  cases l with
  | nil => intro d hd; simp [dropTrailing] at hd
  | cons c t =>
    intro d hd
    simp only [dropTrailing] at hd
    by_cases hb : (dropTrailing p t).isEmpty && p c
    · rw [if_pos hb] at hd
      simp at hd
    · rw [if_neg hb] at hd
      rw [List.head?_cons] at hd ⊢
      exact hd

theorem slugNormal_dropTrailing (p : Char → Bool) : ∀ l : List Char,
    slugNormal l = true → slugNormal (dropTrailing p l) = true := by
  intro l
  induction l with
  | nil => intro h; exact h
  | cons c t ih =>
    intro h
    simp only [dropTrailing]
    by_cases hb : (dropTrailing p t).isEmpty && p c
    · rw [if_pos hb]; rfl
    · rw [if_neg hb]
      rw [slugNormal_cons]
      have hcons := (slugNormal_cons c t).mp h
      refine ⟨hcons.1, ?_, ih (slugNormal_tail h)⟩
      intro d hd
      exact hcons.2.1 d (dropTrailing_head? p t d hd)

theorem dropTrailing_idem (p : Char → Bool) : ∀ l : List Char,
    dropTrailing p (dropTrailing p l) = dropTrailing p l := by
  intro l
  induction l with
  | nil => rfl
  | cons c t ih =>
    simp only [dropTrailing]
    by_cases hb : (dropTrailing p t).isEmpty && p c
    · rw [if_pos hb]; rfl
    · rw [if_neg hb]
      simp only [dropTrailing, ih]
      rw [if_neg hb]

theorem dropWhile_head_false (p : Char → Bool) : ∀ (l : List Char) (d : Char),
    (l.dropWhile p).head? = some d → p d = false := by
  intro l
  induction l with
  | nil => intro d hd; simp at hd
  | cons c t ih =>
    intro d hd
    by_cases hp : p c = true
    · rw [List.dropWhile_cons, if_pos hp] at hd
      exact ih d hd
    · rw [List.dropWhile_cons, if_neg hp] at hd
      rw [List.head?_cons] at hd
      injection hd with hcd
      subst hcd
      simpa using hp

theorem dropTrailing_getLast (p : Char → Bool) : ∀ (l : List Char) (d : Char),
    (dropTrailing p l).getLast? = some d → p d = false := by
  intro l
  induction l with
  | nil => intro d hd; simp [dropTrailing] at hd
  | cons c t ih =>
    intro d hd
    simp only [dropTrailing] at hd
    by_cases hb : (dropTrailing p t).isEmpty && p c
    · rw [if_pos hb] at hd
      simp at hd
    · rw [if_neg hb] at hd
      cases hr : dropTrailing p t with
      | nil =>
        rw [hr] at hd hb
        simp only [List.getLast?_singleton, Option.some.injEq] at hd
        subst hd
        simpa using hb
      | cons r0 rt =>
        rw [hr] at hd
        rw [List.getLast?_cons_cons] at hd
        rw [← hr] at hd
        exact ih d (hr ▸ hd)

theorem mem_dropTrailing (p : Char → Bool) : ∀ (l : List Char) (c : Char),
    c ∈ dropTrailing p l → c ∈ l := by
  intro l
  induction l with
  | nil => intro c hc; exact hc
  | cons d t ih =>
    intro c hc
    simp only [dropTrailing] at hc
    by_cases hb : (dropTrailing p t).isEmpty && p d
    · rw [if_pos hb] at hc
      simp at hc
    · rw [if_neg hb] at hc
      rcases List.mem_cons.mp hc with h | h
      · exact h ▸ List.mem_cons_self d t
      · exact List.mem_cons_of_mem d (ih c h)

theorem collapseHyAux_true_eq_false (t : List Char)
    (h : ∀ d, t.head? = some d → hyphenOrSpace d = false) :
    collapseHyAux true t = collapseHyAux false t := by
  cases t with
  | nil => rfl
  | cons d t' =>
    have hd := h d rfl
    simp [collapseHyAux, hd]

theorem collapseHyAux_id (l : List Char) (h : slugNormal l = true) :
    collapseHyAux false l = l := by
  induction l with
  | nil => rfl
  | cons c t ih =>
    have hcons := (slugNormal_cons c t).mp h
    by_cases hc : hyphenOrSpace c = true
    · have hdash : c = '-' := by
        rcases Bool.or_eq_true _ _ ▸ hc with h1 | h1
        · exact eq_of_beq h1
        · rw [hcons.1] at h1; exact absurd h1 (by simp)
      rw [show collapseHyAux false (c :: t) = '-' :: collapseHyAux true t from by
        simp [collapseHyAux, hc]]
      have hth : ∀ d, t.head? = some d → hyphenOrSpace d = false := by
        intro d hd
        have h2 := hcons.2.1 d hd
        rw [hdash] at h2
        simp only [beq_self_eq_true, Bool.true_and] at h2
        have h3 : pyIsSpace d = false := by
          have := slugNormal_tail h
          cases t with
          | nil => simp at hd
          | cons e t' =>
            rw [List.head?_cons] at hd
            injection hd with hde
            rw [← hde]
            exact ((slugNormal_cons e t').mp this).1
        simp [hyphenOrSpace, h2, h3]
      rw [collapseHyAux_true_eq_false t hth, ih (slugNormal_tail h), hdash]
    · rw [show collapseHyAux false (c :: t) = c :: collapseHyAux false t from by
        simp [collapseHyAux, hc]]
      rw [ih (slugNormal_tail h)]

theorem map_id_of_mem {f : Char → Char} : ∀ l : List Char,
    (∀ c ∈ l, f c = c) → l.map f = l := by
  intro l
  induction l with
  | nil => intro _; rfl
  | cons c t ih =>
    intro h
    rw [List.map_cons, h c (List.mem_cons_self c t), ih (fun d hd => h d (List.mem_cons_of_mem c hd))]

theorem slugNormal_no_space : ∀ l : List Char, slugNormal l = true →
    ∀ c ∈ l, pyIsSpace c = false := by
  intro l
  induction l with
  | nil => intro _ c hc; simp at hc
  | cons d t ih =>
    intro h c hc
    rcases List.mem_cons.mp hc with h1 | h1
    · exact h1 ▸ ((slugNormal_cons d t).mp h).1
    · exact ih (slugNormal_tail h) c h1

theorem dropWhile_eq_self_of_head (p : Char → Bool) (l : List Char)
    (h : ∀ d, l.head? = some d → p d = false) : l.dropWhile p = l := by
  cases l with
  | nil => rfl
  | cons c t =>
    rw [List.dropWhile_cons, if_neg (by simp [h c rfl])]

theorem mem_slugifyList {c : Char} (l : List Char) (hc : c ∈ slugifyList l) :
    c = '-' ∨ c ∈ (l.map pyLowerChar).filter slugKeep := by
  unfold slugifyList stripHyphens at hc
  have h1 := mem_dropTrailing _ _ _ hc
  have h2 := (List.dropWhile_sublist _).subset h1
  exact mem_collapseHyAux false _ h2

theorem slugNormal_slugifyList (l : List Char) : slugNormal (slugifyList l) = true := by
  unfold slugifyList stripHyphens
  exact slugNormal_dropTrailing _ _
    (slugNormal_dropWhile _ _ (slugNormal_collapseHyAux _ false))

theorem slugifyList_head {d : Char} (l : List Char)
    (hd : (slugifyList l).head? = some d) : (d == '-') = false := by
  unfold slugifyList stripHyphens at hd
  exact dropWhile_head_false _ _ d (dropTrailing_head? _ _ d hd)

theorem slugifyList_getLast {d : Char} (l : List Char)
    (hd : (slugifyList l).getLast? = some d) : (d == '-') = false := by
  unfold slugifyList stripHyphens at hd
  exact dropTrailing_getLast _ _ d hd

theorem slugifyList_idem (l : List Char) : slugifyList (slugifyList l) = slugifyList l := by
  have hmap : (slugifyList l).map pyLowerChar = slugifyList l := by
    refine map_id_of_mem _ (fun c hc => ?_)
    rcases mem_slugifyList l hc with h | h
    · rw [h]; decide
    · rcases List.mem_map.mp (List.mem_of_mem_filter h) with ⟨a, _, ha⟩
      rw [← ha]
      exact pyLowerChar_idem a
  have hfilter : (slugifyList l).filter slugKeep = slugifyList l := by
    refine List.filter_eq_self.mpr (fun c hc => ?_)
    rcases mem_slugifyList l hc with h | h
    · rw [h]; decide
    · exact (List.mem_filter.mp h).2
  have hcollapse : collapseHyAux false (slugifyList l) = slugifyList l :=
    collapseHyAux_id _ (slugNormal_slugifyList l)
  have hdropWhile : (slugifyList l).dropWhile (fun c => c == '-') = slugifyList l := by
    refine dropWhile_eq_self_of_head _ _ (fun d hd => ?_)
    exact slugifyList_head l hd
  have hstrip : stripHyphens (slugifyList l) = slugifyList l := by
    unfold stripHyphens
    rw [hdropWhile]
    show dropTrailing _ (slugifyList l) = slugifyList l
    unfold slugifyList stripHyphens
    exact dropTrailing_idem _ _
  show stripHyphens (collapseHyAux false
    (((slugifyList l).map pyLowerChar).filter slugKeep)) = slugifyList l
  rw [hmap, hfilter, hcollapse, hstrip]

/-- Claim C7: `_slugify` is idempotent in both dialects (which share the same
code, so the two functions agree everywhere). -/
theorem claim_c7_slugify_idempotent (x : String) :
    ContentTransformer.slugify (ContentTransformer.slugify x) =
      ContentTransformer.slugify x ∧
    ObsidianTransformer.slugify (ObsidianTransformer.slugify x) =
      ObsidianTransformer.slugify x ∧
    ObsidianTransformer.slugify x = ContentTransformer.slugify x := by
  have key := slugifyList_idem x.data
  exact ⟨congrArg ofChars key, congrArg ofChars key, rfl⟩

/-- Claim C10: every character of a slug is a word character or a hyphen,
none is whitespace, and the slug neither starts nor ends with a hyphen; the
two dialects' functions agree. -/
theorem claim_c10_slug_invariant (s : String) :
    (∀ c ∈ (ContentTransformer.slugify s).data,
      (isWordChar c = true ∨ c = '-') ∧ pyIsSpace c = false) ∧
    (ContentTransformer.slugify s).data.head? ≠ some '-' ∧
    (ContentTransformer.slugify s).data.getLast? ≠ some '-' ∧
    ObsidianTransformer.slugify s = ContentTransformer.slugify s := by
  refine ⟨fun c hc => ⟨?_, ?_⟩, fun h => ?_, fun h => ?_, rfl⟩
  · rcases mem_slugifyList s.data hc with h | h
    · exact Or.inr h
    · have hk := (List.mem_filter.mp h).2
      simp only [slugKeep, Bool.or_eq_true] at hk
      rcases hk with (hw | hsp) | hd
      · exact Or.inl hw
      · exfalso
        have := slugNormal_no_space _ (slugNormal_slugifyList s.data) c hc
        rw [this] at hsp
        exact absurd hsp (by simp)
      · exact Or.inr (eq_of_beq hd)
  · exact slugNormal_no_space _ (slugNormal_slugifyList s.data) c hc
  · have := slugifyList_head s.data h
    simp at this
  · have := slugifyList_getLast s.data h
    simp at this
